import Mathlib

/-!
Verification of the `AnsibleDynamicInventory` data model from
`Boilerplates/Dynamic_Inventory_Script/dynamic_inventory_script.py`.

The inventory is a Python dict of dicts/lists (a JSON object).  We embed it
as an association list `Obj = List (String × Json)` with Python dict
semantics: keys are unique in every dict the program builds, lookup returns
the first matching entry, assignment replaces the value in place (keeping
the key's position) or appends a new entry at the end, exactly as CPython's
insertion-ordered dicts behave.

Mutating methods are embedded as functions `Obj → Res`: `Res.ok` is normal
return, `Res.err` is an uncaught exception (`KeyError`/`TypeError`), carrying
the inventory state at the raise point (Python mutations made before the
raise are not rolled back).  Accesses that would be a `TypeError` in Python
(subscripting a non-dict, `.update` on a non-dict, ...) are likewise mapped
to `Res.err`; they are unreachable from well-formed inventories, which is
the only place the embedded methods are applied in the theorems below.
-/

namespace AnsibleInventory

/-- JSON-like values: the shape of everything stored in `self.inventory`.
Numbers are modeled as integers; the repository itself only ever stores
strings, lists and dicts in the inventory. -/
inductive Json where
  | null
  | bool (b : Bool)
  | num (n : Int)
  | str (s : String)
  | arr (elems : List Json)
  | obj (entries : List (String × Json))

mutual

/-- Decidable equality on `Json` (hand-written: the deriving handler does not
support this nested inductive). -/
def Json.decEq : (a b : Json) → Decidable (a = b)
  | .null, .null => isTrue rfl
  | .null, .bool _ => isFalse (fun h => Json.noConfusion h)
  | .null, .num _ => isFalse (fun h => Json.noConfusion h)
  | .null, .str _ => isFalse (fun h => Json.noConfusion h)
  | .null, .arr _ => isFalse (fun h => Json.noConfusion h)
  | .null, .obj _ => isFalse (fun h => Json.noConfusion h)
  | .bool _, .null => isFalse (fun h => Json.noConfusion h)
  | .bool a, .bool b =>
      if h : a = b then isTrue (congrArg Json.bool h)
      else isFalse (fun g => h (Json.bool.inj g))
  | .bool _, .num _ => isFalse (fun h => Json.noConfusion h)
  | .bool _, .str _ => isFalse (fun h => Json.noConfusion h)
  | .bool _, .arr _ => isFalse (fun h => Json.noConfusion h)
  | .bool _, .obj _ => isFalse (fun h => Json.noConfusion h)
  | .num _, .null => isFalse (fun h => Json.noConfusion h)
  | .num _, .bool _ => isFalse (fun h => Json.noConfusion h)
  | .num a, .num b =>
      if h : a = b then isTrue (congrArg Json.num h)
      else isFalse (fun g => h (Json.num.inj g))
  | .num _, .str _ => isFalse (fun h => Json.noConfusion h)
  | .num _, .arr _ => isFalse (fun h => Json.noConfusion h)
  | .num _, .obj _ => isFalse (fun h => Json.noConfusion h)
  | .str _, .null => isFalse (fun h => Json.noConfusion h)
  | .str _, .bool _ => isFalse (fun h => Json.noConfusion h)
  | .str _, .num _ => isFalse (fun h => Json.noConfusion h)
  | .str a, .str b =>
      if h : a = b then isTrue (congrArg Json.str h)
      else isFalse (fun g => h (Json.str.inj g))
  | .str _, .arr _ => isFalse (fun h => Json.noConfusion h)
  | .str _, .obj _ => isFalse (fun h => Json.noConfusion h)
  | .arr _, .null => isFalse (fun h => Json.noConfusion h)
  | .arr _, .bool _ => isFalse (fun h => Json.noConfusion h)
  | .arr _, .num _ => isFalse (fun h => Json.noConfusion h)
  | .arr _, .str _ => isFalse (fun h => Json.noConfusion h)
  | .arr xs, .arr ys =>
      match Json.decEqList xs ys with
      | isTrue h => isTrue (congrArg Json.arr h)
      | isFalse h => isFalse (fun g => h (Json.arr.inj g))
  | .arr _, .obj _ => isFalse (fun h => Json.noConfusion h)
  | .obj _, .null => isFalse (fun h => Json.noConfusion h)
  | .obj _, .bool _ => isFalse (fun h => Json.noConfusion h)
  | .obj _, .num _ => isFalse (fun h => Json.noConfusion h)
  | .obj _, .str _ => isFalse (fun h => Json.noConfusion h)
  | .obj _, .arr _ => isFalse (fun h => Json.noConfusion h)
  | .obj xs, .obj ys =>
      match Json.decEqEntries xs ys with
      | isTrue h => isTrue (congrArg Json.obj h)
      | isFalse h => isFalse (fun g => h (Json.obj.inj g))

/-- Decidable equality on lists of `Json`. -/
def Json.decEqList : (xs ys : List Json) → Decidable (xs = ys)
  | [], [] => isTrue rfl
  | [], _ :: _ => isFalse (fun h => List.noConfusion h)
  | _ :: _, [] => isFalse (fun h => List.noConfusion h)
  | x :: xs, y :: ys =>
      match Json.decEq x y with
      | isFalse h => isFalse (fun g => by cases g; exact h rfl)
      | isTrue h1 =>
          match Json.decEqList xs ys with
          | isTrue h2 => isTrue (by rw [h1, h2])
          | isFalse h2 => isFalse (fun g => by cases g; exact h2 rfl)

/-- Decidable equality on lists of dict entries. -/
def Json.decEqEntries : (xs ys : List (String × Json)) → Decidable (xs = ys)
  | [], [] => isTrue rfl
  | [], _ :: _ => isFalse (fun h => List.noConfusion h)
  | _ :: _, [] => isFalse (fun h => List.noConfusion h)
  | (k, v) :: xs, (l, w) :: ys =>
      if hk : k = l then
        match Json.decEq v w with
        | isFalse h => isFalse (fun g => by cases g; exact h rfl)
        | isTrue h1 =>
            match Json.decEqEntries xs ys with
            | isTrue h2 => isTrue (by rw [hk, h1, h2])
            | isFalse h2 => isFalse (fun g => by cases g; exact h2 rfl)
      else isFalse (fun g => by cases g; exact hk rfl)

end

instance : DecidableEq Json := Json.decEq

/-- A Python dict with string keys, in insertion order. -/
abbrev Obj := List (String × Json)

/-- Python dict lookup `d[k]` / `d.get(k)`: first entry with key `k`. -/
def dGet (d : Obj) (k : String) : Option Json :=
  match d with
  | [] => none
  | (k', v) :: rest => if k' = k then some v else dGet rest k

/-- Python dict assignment `d[k] = v`: replace in place, else append. -/
def dSet (d : Obj) (k : String) (v : Json) : Obj :=
  match d with
  | [] => [(k, v)]
  | (k', v') :: rest => if k' = k then (k', v) :: rest else (k', v') :: dSet rest k v

/-- Python `del d[k]` (keys are unique in every dict the program builds). -/
def dDel (d : Obj) (k : String) : Obj :=
  match d with
  | [] => []
  | (k', v') :: rest => if k' = k then rest else (k', v') :: dDel rest k

/-- Python `k in d` on a dict. -/
def dHasKey (d : Obj) (k : String) : Bool :=
  (dGet d k).isSome

/-- Python `x in xs` on a list. -/
def jmem (x : Json) (xs : List Json) : Bool :=
  match xs with
  | [] => false
  | y :: rest => if y = x then true else jmem x rest

/-- Python `xs.remove(x)`: drop the first occurrence of `x`. -/
def listRemoveFirst (x : Json) (xs : List Json) : List Json :=
  match xs with
  | [] => []
  | y :: rest => if y = x then rest else y :: listRemoveFirst x rest

/-- Python `if x not in xs: xs.append(x)`. -/
def appendIfAbsent (x : Json) (xs : List Json) : List Json :=
  if jmem x xs then xs else xs ++ [x]

/-- Python `base.update(upd)` on dicts: last write wins per key. -/
def jUpdate (base upd : Obj) : Obj :=
  upd.foldl (fun acc kv => dSet acc kv.1 kv.2) base

/-- The result of running one mutating method: normal return, or an uncaught
exception together with the inventory state at the raise point. -/
inductive Res where
  | ok (inv : Obj)
  | err (inv : Obj)
deriving DecidableEq

/-- The inventory state held in a `Res`, whether or not the call raised. -/
def resState (r : Res) : Obj :=
  match r with
  | .ok inv => inv
  | .err inv => inv

/-- `True` iff the call raised an uncaught exception. -/
def resIsErr (r : Res) : Bool :=
  match r with
  | .ok _ => false
  | .err _ => true

/-- The inventory built by `AnsibleDynamicInventory.__init__`. -/
def freshInventory : Obj :=
  [("_meta", Json.obj [("hostvars", Json.obj [])]),
   ("all", Json.obj [("children", Json.arr [Json.str "ungrouped"])]),
   ("ungrouped", Json.obj [("hosts", Json.arr []), ("vars", Json.obj []), ("children", Json.arr [])])]

/-- The record `{'hosts': hs, 'vars': vs, 'children': cs}`. -/
def groupRec (hs : List Json) (vs : Obj) (cs : List Json) : Json :=
  Json.obj [("hosts", Json.arr hs), ("vars", Json.obj vs), ("children", Json.arr cs)]

/-- Lines 43-46 of `add_group`: register the group under `all.children` and
lazily create its record.  (`add_group(group=g)` with no `group_vars`, the
form used by the reentrant calls inside the other methods, is exactly this.) -/
def ensureGroup (group : String) (inv : Obj) : Res :=
  match dGet inv "all" with
  | some (Json.obj allRec) =>
      match dGet allRec "children" with
      | some (Json.arr cs) =>
          let inv1 := dSet inv "all" (Json.obj (dSet allRec "children" (Json.arr (appendIfAbsent (Json.str group) cs))))
          if dHasKey inv1 group then .ok inv1
          else .ok (dSet inv1 group (groupRec [] [] []))
      | some _ => .err inv
      | none => .err inv
  | some _ => .err inv
  | none => .err inv

/-- `add_group_vars(group, group_vars)` (lines 149-160). -/
def add_group_vars (group : String) (group_vars : Obj) (inv : Obj) : Res :=
  match ensureGroup group inv with
  | .err i => .err i
  | .ok inv1 =>
      match dGet inv1 group with
      | some (Json.obj grec) =>
          let grec1 := if dHasKey grec "vars" then grec else dSet grec "vars" (Json.obj [])
          match dGet grec1 "vars" with
          | some (Json.obj vs) =>
              .ok (dSet inv1 group (Json.obj (dSet grec1 "vars" (Json.obj (jUpdate vs group_vars)))))
          | some _ => .err (dSet inv1 group (Json.obj grec1))
          | none => .err (dSet inv1 group (Json.obj grec1))
      | some _ => .err inv1
      | none => .err inv1

/-- `add_group(group, group_vars)` (lines 35-49).  A `None` / empty
`group_vars` is falsy, so the variable merge is skipped. -/
def add_group (group : String) (group_vars : Obj) (inv : Obj) : Res :=
  match ensureGroup group inv with
  | .err i => .err i
  | .ok inv1 =>
      if group_vars.isEmpty then .ok inv1
      else add_group_vars group group_vars inv1

/-- `self.inventory['_meta']['hostvars'].setdefault(host, {}).update(vars)`
applied to the `hostvars` dict: `none` is a `TypeError` (`.update` on a
non-dict entry), unreachable from well-formed inventories. -/
def hvUpdate (host : String) (vars : Obj) (hv : Obj) : Option Obj :=
  match dGet hv host with
  | none => some (dSet hv host (Json.obj (jUpdate [] vars)))
  | some (Json.obj cur) => some (dSet hv host (Json.obj (jUpdate cur vars)))
  | some _ => none

/-- The `else` branch shared by `add_host` and `add_host_to_group`:
append the host to `ungrouped.hosts` if it is not already there. -/
def ungroupedAppendHost (host : String) (inv : Obj) : Res :=
  match dGet inv "ungrouped" with
  | some (Json.obj urec) =>
      match dGet urec "hosts" with
      | some (Json.arr hs) =>
          .ok (dSet inv "ungrouped" (Json.obj (dSet urec "hosts" (Json.arr (appendIfAbsent (Json.str host) hs)))))
      | some _ => .err inv
      | none => .err inv
  | some _ => .err inv
  | none => .err inv

/-- Append the host to the named group's `hosts` list if absent
(lines 94-95 / 126-127); a missing or non-list `hosts` field is an
uncaught `KeyError`/`TypeError`. -/
def groupAppendHost (host group : String) (inv : Obj) : Res :=
  match dGet inv group with
  | some (Json.obj grec) =>
      match dGet grec "hosts" with
      | some (Json.arr hs) =>
          .ok (dSet inv group (Json.obj (dSet grec "hosts" (Json.arr (appendIfAbsent (Json.str host) hs)))))
      | some _ => .err inv
      | none => .err inv
  | some _ => .err inv
  | none => .err inv

/-- `add_host(host, group, vars, group_vars)` (lines 74-98).  `group` is
`Optional[str]`; `None` and the empty string are falsy. -/
def add_host (host : String) (group : Option String) (vars group_vars : Obj) (inv : Obj) : Res :=
  match dGet inv "_meta" with
  | some (Json.obj meta) =>
      match dGet meta "hostvars" with
      | some (Json.obj hv) =>
          match hvUpdate host vars hv with
          | none => .err inv
          | some hv1 =>
              let inv1 := dSet inv "_meta" (Json.obj (dSet meta "hostvars" (Json.obj hv1)))
              match group with
              | some g =>
                  if g = "" then ungroupedAppendHost host inv1
                  else
                    match add_group g group_vars inv1 with
                    | .err i => .err i
                    | .ok inv2 => groupAppendHost host g inv2
              | none => ungroupedAppendHost host inv1
      | some _ => .err inv
      | none => .err inv
  | some _ => .err inv
  | none => .err inv

/-- `add_host_to_group(host, group, vars, group_vars)` (lines 100-130):
like `add_host`, but a named group first evicts the host from
`ungrouped.hosts` (lines 122-124). -/
def add_host_to_group (host : String) (group : Option String) (vars group_vars : Obj) (inv : Obj) : Res :=
  match dGet inv "_meta" with
  | some (Json.obj meta) =>
      match dGet meta "hostvars" with
      | some (Json.obj hv) =>
          match hvUpdate host vars hv with
          | none => .err inv
          | some hv1 =>
              let inv1 := dSet inv "_meta" (Json.obj (dSet meta "hostvars" (Json.obj hv1)))
              match group with
              | some g =>
                  if g = "" then ungroupedAppendHost host inv1
                  else
                    match add_group g group_vars inv1 with
                    | .err i => .err i
                    | .ok inv2 =>
                        match dGet inv2 "ungrouped" with
                        | some (Json.obj urec) =>
                            match dGet urec "hosts" with
                            | some (Json.arr uhs) =>
                                let inv3 :=
                                  if jmem (Json.str host) uhs then
                                    dSet inv2 "ungrouped" (Json.obj (dSet urec "hosts" (Json.arr (listRemoveFirst (Json.str host) uhs))))
                                  else inv2
                                groupAppendHost host g inv3
                            | some _ => .err inv2
                            | none => .err inv2
                        | some _ => .err inv2
                        | none => .err inv2
              | none => ungroupedAppendHost host inv1
      | some _ => .err inv
      | none => .err inv
  | some _ => .err inv
  | none => .err inv

/-- `add_child_group(parent_group, child_group, group_vars)` (lines 132-147). -/
def add_child_group (parent child : String) (group_vars : Obj) (inv : Obj) : Res :=
  match ensureGroup parent inv with
  | .err i => .err i
  | .ok inv1 =>
      match add_group child group_vars inv1 with
      | .err i => .err i
      | .ok inv2 =>
          match dGet inv2 parent with
          | some (Json.obj prec) =>
              match dGet prec "children" with
              | none =>
                  .ok (dSet inv2 parent (Json.obj (dSet (dSet prec "children" (Json.arr [])) "children" (Json.arr (appendIfAbsent (Json.str child) [])))))
              | some (Json.arr cs) =>
                  .ok (dSet inv2 parent (Json.obj (dSet prec "children" (Json.arr (appendIfAbsent (Json.str child) cs)))))
              | some _ => .err inv2
          | some _ => .err inv2
          | none => .err inv2

/-- `add_hosts(hosts, group, vars, group_vars)` (lines 51-72): ensure the
group first, then `add_host` each host in order (without `group_vars`). -/
def add_hosts (hosts : List String) (group : Option String) (vars group_vars : Obj) (inv : Obj) : Res :=
  let start : Res :=
    match group with
    | some g => if g = "" then .ok inv else add_group g group_vars inv
    | none => .ok inv
  hosts.foldl
    (fun r h =>
      match r with
      | .err i => .err i
      | .ok i => add_host h group vars [] i)
    start

/-- Drop `group` from a record's `children` list if both exist: the body of
the cleanup loop of `remove_group` (lines 246-248).  A record that is not a
dict, or whose `children` value is not a list, is left untouched; from a
well-formed inventory (the only states these loops run on in the theorems
below) every record is a dict and every `children` value is a list. -/
def stripChild (group : String) (v : Json) : Json :=
  match v with
  | Json.obj r =>
      match dGet r "children" with
      | some (Json.arr cs) =>
          if jmem (Json.str group) cs then
            Json.obj (dSet r "children" (Json.arr (listRemoveFirst (Json.str group) cs)))
          else Json.obj r
      | _ => Json.obj r
  | _ => v

/-- `remove_group(group)` (lines 234-248). -/
def remove_group (group : String) (inv : Obj) : Res :=
  let inv1 := if dHasKey inv group then dDel inv group else inv
  match dGet inv1 "all" with
  | some (Json.obj allRec) =>
      match dGet allRec "children" with
      | some (Json.arr cs) =>
          let inv2 :=
            if jmem (Json.str group) cs then
              dSet inv1 "all" (Json.obj (dSet allRec "children" (Json.arr (listRemoveFirst (Json.str group) cs))))
            else inv1
          .ok (inv2.map (fun kv => (kv.1, stripChild group kv.2)))
      | some _ => .err inv1
      | none => .err inv1
  | some _ => .err inv1
  | none => .err inv1

/-- Drop `host` from a record's `hosts` list if both exist: the body of the
cleanup loop of `remove_host` (lines 260-264); non-dict records and
non-list `hosts` values are left untouched, as for `stripChild`. -/
def stripHost (host : String) (v : Json) : Json :=
  match v with
  | Json.obj r =>
      match dGet r "hosts" with
      | some (Json.arr hs) =>
          if jmem (Json.str host) hs then
            Json.obj (dSet r "hosts" (Json.arr (listRemoveFirst (Json.str host) hs)))
          else Json.obj r
      | _ => Json.obj r
  | _ => v

/-- `remove_host(host)` (lines 250-264). -/
def remove_host (host : String) (inv : Obj) : Res :=
  match dGet inv "_meta" with
  | some (Json.obj meta) =>
      match dGet meta "hostvars" with
      | some (Json.obj hv) =>
          let inv1 :=
            if dHasKey hv host then
              dSet inv "_meta" (Json.obj (dSet meta "hostvars" (Json.obj (dDel hv host))))
            else inv
          .ok (inv1.map (fun kv => (kv.1, if kv.1 = "_meta" then kv.2 else stripHost host kv.2)))
      | some _ => .err inv
      | none => .err inv
  | some _ => .err inv
  | none => .err inv

/-- `get_groups()` (lines 171-178): all records except `_meta`. -/
def get_groups (inv : Obj) : Obj :=
  inv.filter (fun kv => kv.1 ≠ "_meta")

/-- `get_child_groups(group)` (lines 180-192).  `none` is an uncaught
`AttributeError` (`.get` on a non-dict record), unreachable from
well-formed inventories. -/
def get_child_groups (group : String) (inv : Obj) : Option Json :=
  match dGet inv group with
  | none => some (Json.arr [])
  | some (Json.obj grec) => some ((dGet grec "children").getD (Json.arr []))
  | some _ => none

/-- `get_hosts_in_group(group)` (lines 194-206). -/
def get_hosts_in_group (group : String) (inv : Obj) : Option Json :=
  match dGet inv group with
  | none => some (Json.arr [])
  | some (Json.obj grec) => some ((dGet grec "hosts").getD (Json.arr []))
  | some _ => none

/-- `get_host(host)` (lines 208-218): `some none` is Python's `None`
("unknown host" marker); the outer `none` is an uncaught error, unreachable
from well-formed inventories. -/
def get_host (host : String) (inv : Obj) : Option (Option Json) :=
  match dGet inv "_meta" with
  | some (Json.obj meta) =>
      match dGet meta "hostvars" with
      | some (Json.obj hv) => some (dGet hv host)
      | some _ => none
      | none => none
  | some _ => none
  | none => none

/-- `get_group(group)` (lines 220-232): `some none` is Python's `None`
("unknown group" marker). -/
def get_group (group : String) (inv : Obj) : Option (Option Json) :=
  match dGet inv group with
  | none => some none
  | some (Json.obj grec) => some (some ((dGet grec "vars").getD (Json.obj [])))
  | some _ => none

/-- Contents of the cache file: either text that parses as JSON (modeled by
the parsed value, since `json.load` of what `json.dump` wrote returns an
equal value for these string-keyed structures) or text that raises
`json.JSONDecodeError`. -/
inductive FileData where
  | valid (j : Json)
  | invalid
deriving DecidableEq

/-- `load_cache()` (lines 266-278): the structure of the returned store.
`none` models a missing cache file.  The parsed data is installed raw,
without validation. -/
def load_cache (fs : Option FileData) : Json :=
  match fs with
  | none => Json.obj freshInventory
  | some FileData.invalid => Json.obj freshInventory
  | some (FileData.valid j) => j

/-- `save_cache(inventory)` (lines 280-285): overwrite the cache file with
the serialized store. -/
def save_cache (inv : Obj) : Option FileData :=
  some (FileData.valid (Json.obj inv))

/-- One call of a documented mutation operation, with its arguments. -/
inductive Op where
  | addGroup (group : String) (group_vars : Obj)
  | addHost (host : String) (group : Option String) (vars group_vars : Obj)
  | addHosts (hosts : List String) (group : Option String) (vars group_vars : Obj)
  | addHostToGroup (host : String) (group : Option String) (vars group_vars : Obj)
  | addChildGroup (parent child : String) (group_vars : Obj)
  | addGroupVars (group : String) (group_vars : Obj)
  | removeGroup (group : String)
  | removeHost (host : String)

/-- Run one operation. -/
def applyOp (op : Op) (inv : Obj) : Res :=
  match op with
  | .addGroup g gv => add_group g gv inv
  | .addHost h g v gv => add_host h g v gv inv
  | .addHosts hs g v gv => add_hosts hs g v gv inv
  | .addHostToGroup h g v gv => add_host_to_group h g v gv inv
  | .addChildGroup p c gv => add_child_group p c gv inv
  | .addGroupVars g gv => add_group_vars g gv inv
  | .removeGroup g => remove_group g inv
  | .removeHost h => remove_host h inv

/-- Run a sequence of operations; an uncaught exception stops the run,
leaving the state at the raise point. -/
def runOps (ops : List Op) (inv : Obj) : Res :=
  ops.foldl
    (fun r op =>
      match r with
      | .err i => .err i
      | .ok i => applyOp op i)
    (.ok inv)

/-- The `children` list of the `all` record (empty if malformed). -/
def allChildren (inv : Obj) : List Json :=
  match dGet inv "all" with
  | some (Json.obj allRec) =>
      match dGet allRec "children" with
      | some (Json.arr cs) => cs
      | _ => []
  | _ => []

/-- The `_meta.hostvars` dict (empty if malformed). -/
def hostvarsOf (inv : Obj) : Obj :=
  match dGet inv "_meta" with
  | some (Json.obj meta) =>
      match dGet meta "hostvars" with
      | some (Json.obj hv) => hv
      | _ => []
  | _ => []

/-- The `children` list of a record (empty if the field is missing). -/
def recChildren (v : Json) : List Json :=
  match v with
  | Json.obj r =>
      match dGet r "children" with
      | some (Json.arr cs) => cs
      | _ => []
  | _ => []

/-- The `hosts` list of a record (empty if the field is missing). -/
def recHosts (v : Json) : List Json :=
  match v with
  | Json.obj r =>
      match dGet r "hosts" with
      | some (Json.arr hs) => hs
      | _ => []
  | _ => []

/-- The `hosts` list of the named group (empty if the group is unknown). -/
def hostsOf (group : String) (inv : Obj) : List Json :=
  match dGet inv group with
  | some v => recHosts v
  | none => []

/-- The `vars` dict of the named group (empty if the group is unknown). -/
def varsOf (group : String) (inv : Obj) : Obj :=
  match dGet inv group with
  | some (Json.obj r) =>
      match dGet r "vars" with
      | some (Json.obj vs) => vs
      | _ => []
  | _ => []

/-- The `children` list of the named group (empty if the group is unknown). -/
def childrenOf (group : String) (inv : Obj) : List Json :=
  match dGet inv group with
  | some v => recChildren v
  | none => []

/-- The current `_meta.hostvars` entry of a host, as the dict that
`setdefault(host, {})` returns (empty when the host is new). -/
def hvEntryObj (host : String) (hv : Obj) : Obj :=
  match dGet hv host with
  | some (Json.obj cur) => cur
  | _ => []

/-- An optional group-name argument that avoids the reserved records
`all` and `_meta`. -/
def okName (g : Option String) : Prop :=
  match g with
  | some s => s ≠ "all" ∧ s ≠ "_meta"
  | none => True

/-- All group-name arguments of the operation avoid the reserved records
`all` and `_meta`. -/
def opArgsOK (op : Op) : Prop :=
  match op with
  | .addGroup g _ => g ≠ "all" ∧ g ≠ "_meta"
  | .addHost _ g _ _ => okName g
  | .addHosts _ g _ _ => okName g
  | .addHostToGroup _ g _ _ => okName g
  | .addChildGroup p c _ => (p ≠ "all" ∧ p ≠ "_meta") ∧ (c ≠ "all" ∧ c ≠ "_meta")
  | .addGroupVars g _ => g ≠ "all" ∧ g ≠ "_meta"
  | .removeGroup g => g ≠ "all" ∧ g ≠ "_meta"
  | .removeHost _ => True

/-- All group-name arguments in the sequence avoid `all` and `_meta`. -/
def opsArgsOK (ops : List Op) : Prop :=
  ∀ op ∈ ops, opArgsOK op

/-- The registration invariant claimed by the spec: every group name that
appears anywhere in the store (as an entry of some record's `children`
list, or as a top-level group record) is an element of `all.children` and
has a top-level record carrying all three of `hosts`, `vars`, `children`. -/
def groupsRegistered (inv : Obj) : Prop :=
  ∀ g : String,
    ((∃ kv ∈ inv, Json.str g ∈ recChildren kv.2) ∨
      ((dGet inv g).isSome = true ∧ g ≠ "all" ∧ g ≠ "_meta")) →
    (Json.str g ∈ allChildren inv ∧ ∃ hs vs cs, dGet inv g = some (groupRec hs vs cs))

/-- What a call that hits a reserved group name does: it raises (an
uncaught key-lookup error), the host's `_meta.hostvars` entry has already
been created/updated at the raise point, no new group membership was
recorded, and — when the host was previously unknown — the store is left
modified. -/
def crashSpec (r : Res) (inv : Obj) (host : String) (vars : Obj) : Prop :=
  resIsErr r = true ∧
  dGet (hostvarsOf (resState r)) host
    = some (Json.obj (jUpdate (hvEntryObj host (hostvarsOf inv)) vars)) ∧
  (∀ k, Json.str host ∈ hostsOf k (resState r) → Json.str host ∈ hostsOf k inv) ∧
  (dGet (hostvarsOf inv) host = none → resState r ≠ inv)

theorem jmem_iff {x : Json} {xs : List Json} : jmem x xs = true ↔ x ∈ xs := by
  induction xs with
  | nil => simp [jmem]
  | cons y rest ih =>
      by_cases h : y = x
      · simp [jmem, h]
      · simp [jmem, h, ih, List.mem_cons, Ne.symm h]

theorem mem_appendIfAbsent {x y : Json} {xs : List Json} :
    y ∈ appendIfAbsent x xs ↔ y ∈ xs ∨ y = x := by
  unfold appendIfAbsent
  by_cases h : jmem x xs
  · simp [h]
    intro hyx
    exact hyx ▸ jmem_iff.mp h
  · simp [h]

theorem self_mem_appendIfAbsent {x : Json} {xs : List Json} : x ∈ appendIfAbsent x xs :=
  mem_appendIfAbsent.mpr (Or.inr rfl)

theorem nodup_appendIfAbsent {x : Json} {xs : List Json} (h : xs.Nodup) :
    (appendIfAbsent x xs).Nodup := by
  unfold appendIfAbsent
  by_cases hm : jmem x xs
  · simpa [hm] using h
  · have hx : x ∉ xs := fun hx => hm (jmem_iff.mpr hx)
    simp [hm, List.nodup_append, h, hx]

theorem appendIfAbsent_idem {x : Json} {xs : List Json} :
    appendIfAbsent x (appendIfAbsent x xs) = appendIfAbsent x xs := by
  unfold appendIfAbsent
  by_cases hm : jmem x xs
  · simp [hm]
  · simp [hm, jmem_iff]

theorem listRemoveFirst_sublist (x : Json) (xs : List Json) :
    (listRemoveFirst x xs).Sublist xs := by
  induction xs with
  | nil => simp [listRemoveFirst]
  | cons y rest ih =>
      by_cases h : y = x
      · simpa [listRemoveFirst, h] using List.sublist_cons_self y rest
      · simpa [listRemoveFirst, h] using ih.cons₂ y

theorem nodup_listRemoveFirst {x : Json} {xs : List Json} (h : xs.Nodup) :
    (listRemoveFirst x xs).Nodup :=
  (listRemoveFirst_sublist x xs).nodup h

theorem listRemoveFirst_of_not_mem {x : Json} {xs : List Json} (h : x ∉ xs) :
    listRemoveFirst x xs = xs := by
  induction xs with
  | nil => rfl
  | cons y rest ih =>
      have hyx : y ≠ x := fun hy => h (hy ▸ List.mem_cons_self y rest)
      have hx : x ∉ rest := fun hx => h (List.mem_cons_of_mem y hx)
      simp [listRemoveFirst, hyx, ih hx]

theorem mem_listRemoveFirst_of_mem {x y : Json} {xs : List Json}
    (hy : y ∈ xs) (hne : y ≠ x) : y ∈ listRemoveFirst x xs := by
  induction xs with
  | nil => cases hy
  | cons z rest ih =>
      by_cases h : z = x
      · subst h
        rcases List.mem_cons.mp hy with h1 | h1
        · exact absurd h1 hne
        · simp [listRemoveFirst, h1]
      · rcases List.mem_cons.mp hy with h1 | h1
        · simp [listRemoveFirst, h, h1]
        · simp [listRemoveFirst, h]
          exact Or.inr (ih h1)

theorem not_mem_listRemoveFirst {x : Json} {xs : List Json} (h : xs.Nodup) :
    x ∉ listRemoveFirst x xs := by
  induction xs with
  | nil => simp [listRemoveFirst]
  | cons y rest ih =>
      by_cases hyx : y = x
      · subst hyx
        simpa [listRemoveFirst] using (List.nodup_cons.mp h).1
      · have := ih (List.nodup_cons.mp h).2
        simp [listRemoveFirst, hyx, this, Ne.symm hyx]

theorem mem_listRemoveFirst {x y : Json} {xs : List Json} (h : y ∈ listRemoveFirst x xs) :
    y ∈ xs :=
  (listRemoveFirst_sublist x xs).mem h

theorem dGet_dSet_self (d : Obj) (k : String) (v : Json) : dGet (dSet d k v) k = some v := by
  induction d with
  | nil => simp [dGet, dSet]
  | cons kv rest ih =>
      by_cases h : kv.1 = k
      · simp [dGet, dSet, h]
      · simp [dGet, dSet, h, ih]

theorem dGet_dSet_ne (d : Obj) {k k' : String} (v : Json) (h : k' ≠ k) :
    dGet (dSet d k v) k' = dGet d k' := by
  induction d with
  | nil => simp [dGet, dSet, Ne.symm h]
  | cons kv rest ih =>
      by_cases h1 : kv.1 = k
      · simp [dGet, dSet, h1, Ne.symm h, h]
      · by_cases h2 : kv.1 = k'
        · simp [dGet, dSet, h1, h2, h]
        · simp [dGet, dSet, h1, h2, h, ih]

theorem dGet_dDel_ne (d : Obj) {k k' : String} (h : k' ≠ k) :
    dGet (dDel d k) k' = dGet d k' := by
  induction d with
  | nil => simp [dDel]
  | cons kv rest ih =>
      by_cases h1 : kv.1 = k
      · simp [dDel, dGet, h1, Ne.symm h, h]
      · by_cases h2 : kv.1 = k'
        · simp [dDel, dGet, h1, h2, h]
        · simp [dDel, dGet, h1, h2, h, ih]

theorem dDel_sublist (d : Obj) (k : String) : (dDel d k).Sublist d := by
  induction d with
  | nil => simp [dDel]
  | cons kv rest ih =>
      by_cases h : kv.1 = k
      · simpa [dDel, h] using List.sublist_cons_self kv rest
      · simpa [dDel, h] using ih.cons₂ kv

theorem dGet_none_of_not_mem_keys {d : Obj} {k : String} (h : k ∉ d.map Prod.fst) :
    dGet d k = none := by
  induction d with
  | nil => rfl
  | cons kv rest ih =>
      have h1 : kv.1 ≠ k := fun hq => h (by simp [hq])
      have h2 : k ∉ rest.map Prod.fst := fun hq => h (by simp [hq])
      simp [dGet, h1, ih h2]

theorem dGet_dDel_self {d : Obj} {k : String} (h : (d.map Prod.fst).Nodup) :
    dGet (dDel d k) k = none := by
  induction d with
  | nil => rfl
  | cons kv rest ih =>
      simp only [List.map_cons, List.nodup_cons] at h
      by_cases h1 : kv.1 = k
      · subst h1
        simp only [dDel, if_pos rfl]
        exact dGet_none_of_not_mem_keys h.1
      · simp [dDel, h1, dGet, ih h.2]

theorem dGet_isSome_iff {d : Obj} {k : String} :
    (dGet d k).isSome ↔ k ∈ d.map Prod.fst := by
  induction d with
  | nil => simp [dGet]
  | cons kv rest ih =>
      by_cases h : kv.1 = k
      · simp [dGet, h]
      · simp [dGet, h, ih, Ne.symm h]

theorem dGet_mem {d : Obj} {k : String} {v : Json} (h : dGet d k = some v) : (k, v) ∈ d := by
  induction d with
  | nil => simp [dGet] at h
  | cons kv rest ih =>
      by_cases h1 : kv.1 = k
      · simp only [dGet, if_pos h1] at h
        injection h with h2
        subst h1; subst h2
        exact List.mem_cons.mpr (Or.inl rfl)
      · simp only [dGet, if_neg h1] at h
        exact List.mem_cons_of_mem _ (ih h)

theorem mem_dSet {d : Obj} {k : String} {v : Json} {p : String × Json}
    (h : p ∈ dSet d k v) : p = (k, v) ∨ p ∈ d := by
  induction d with
  | nil => simpa [dSet] using h
  | cons kv rest ih =>
      by_cases h1 : kv.1 = k
      · simp only [dSet, if_pos h1] at h
        rcases List.mem_cons.mp h with h2 | h2
        · left; rw [h2, h1]
        · right; exact List.mem_cons_of_mem _ h2
      · simp only [dSet, if_neg h1] at h
        rcases List.mem_cons.mp h with h2 | h2
        · right; rw [h2]; exact List.mem_cons.mpr (Or.inl rfl)
        · rcases ih h2 with h3 | h3
          · exact Or.inl h3
          · exact Or.inr (List.mem_cons_of_mem _ h3)

theorem keys_dSet_mem {d : Obj} {k : String} (v : Json) (h : k ∈ d.map Prod.fst) :
    (dSet d k v).map Prod.fst = d.map Prod.fst := by
  induction d with
  | nil => simp at h
  | cons kv rest ih =>
      by_cases h1 : kv.1 = k
      · simp [dSet, h1]
      · have h2 : k ∈ rest.map Prod.fst := by
          rw [List.map_cons] at h
          rcases List.mem_cons.mp h with h2 | h2
          · exact absurd h2.symm h1
          · exact h2
        simp [dSet, h1, ih h2]

theorem keys_dSet_not_mem {d : Obj} {k : String} (v : Json) (h : k ∉ d.map Prod.fst) :
    (dSet d k v).map Prod.fst = d.map Prod.fst ++ [k] := by
  induction d with
  | nil => simp [dSet]
  | cons kv rest ih =>
      have h1 : kv.1 ≠ k := fun hq => h (by simp [hq])
      have h2 : k ∉ rest.map Prod.fst := fun hq => h (by simp [hq])
      simp [dSet, h1, ih h2]

theorem nodup_keys_dSet {d : Obj} {k : String} (v : Json) (h : (d.map Prod.fst).Nodup) :
    ((dSet d k v).map Prod.fst).Nodup := by
  by_cases hm : k ∈ d.map Prod.fst
  · rw [keys_dSet_mem v hm]; exact h
  · rw [keys_dSet_not_mem v hm]
    simp [List.nodup_append, h, hm]

theorem isSome_dGet_dSet {d : Obj} {k s : String} {v : Json} :
    (dGet (dSet d k v) s).isSome ↔ (dGet d s).isSome ∨ s = k := by
  by_cases h : s = k
  · simp [h, dGet_dSet_self]
  · simp [dGet_dSet_ne d v h, h]

theorem nodup_keys_jUpdate {base : Obj} (upd : Obj) (h : (base.map Prod.fst).Nodup) :
    ((jUpdate base upd).map Prod.fst).Nodup := by
  induction upd generalizing base with
  | nil => simpa [jUpdate] using h
  | cons kv rest ih =>
      have : jUpdate base (kv :: rest) = jUpdate (dSet base kv.1 kv.2) rest := by
        simp [jUpdate, List.foldl_cons]
      rw [this]
      exact ih (nodup_keys_dSet kv.2 h)

/-- The `_meta` record: `{'hostvars': hv}`. -/
def metaShape (hv : Obj) : Json :=
  Json.obj [("hostvars", Json.obj hv)]

/-- The `all` record: `{'children': cs}`. -/
def allShape (cs : List Json) : Json :=
  Json.obj [("children", Json.arr cs)]

/-- A well-formed entry of a `children` list: the name of a non-reserved
group that has a top-level record. -/
def childOK (inv : Obj) (x : Json) : Prop :=
  ∃ s, x = Json.str s ∧ s ≠ "_meta" ∧ s ≠ "all" ∧ (dGet inv s).isSome = true

/-- Well-formedness of an inventory, as established by `__init__` and
preserved by every mutation whose group-name arguments avoid the reserved
records `all` and `_meta`. -/
structure WF (inv : Obj) : Prop where
  keys_nodup : (inv.map Prod.fst).Nodup
  meta_ok : ∃ hv, dGet inv "_meta" = some (metaShape hv) ∧ (hv.map Prod.fst).Nodup ∧
      ∀ p ∈ hv, ∃ o, p.2 = Json.obj o
  all_ok : ∃ cs, dGet inv "all" = some (allShape cs) ∧ cs.Nodup ∧
      (∀ x ∈ cs, childOK inv x) ∧
      (∀ k, (dGet inv k).isSome = true → k ≠ "_meta" → k ≠ "all" → Json.str k ∈ cs)
  groups_ok : ∀ k v, dGet inv k = some v → k ≠ "_meta" → k ≠ "all" →
      ∃ hs vs cs, v = groupRec hs vs cs ∧ hs.Nodup ∧ cs.Nodup ∧ ∀ x ∈ cs, childOK inv x

theorem childOK_mono {inv inv' : Obj}
    (hm : ∀ s, (dGet inv s).isSome = true → (dGet inv' s).isSome = true) {x : Json}
    (h : childOK inv x) : childOK inv' x := by
  obtain ⟨s, rfl, h1, h2, h3⟩ := h
  exact ⟨s, rfl, h1, h2, hm s h3⟩

theorem recHosts_groupRec (hs : List Json) (vs : Obj) (cs : List Json) :
    recHosts (groupRec hs vs cs) = hs := by
  simp [recHosts, groupRec, dGet]

theorem recChildren_groupRec (hs : List Json) (vs : Obj) (cs : List Json) :
    recChildren (groupRec hs vs cs) = cs := by
  simp [recChildren, groupRec, dGet]

theorem hostsOf_eq_of_dGet {inv : Obj} {g : String} {hs : List Json} {vs : Obj} {cs : List Json}
    (h : dGet inv g = some (groupRec hs vs cs)) : hostsOf g inv = hs := by
  simp [hostsOf, h, recHosts_groupRec]

theorem childrenOf_eq_of_dGet {inv : Obj} {g : String} {hs : List Json} {vs : Obj} {cs : List Json}
    (h : dGet inv g = some (groupRec hs vs cs)) : childrenOf g inv = cs := by
  simp [childrenOf, h, recChildren_groupRec]

theorem varsOf_eq_of_dGet {inv : Obj} {g : String} {hs : List Json} {vs : Obj} {cs : List Json}
    (h : dGet inv g = some (groupRec hs vs cs)) : varsOf g inv = vs := by
  simp [varsOf, h, groupRec, dGet]

theorem hostsOf_eq_of_none {inv : Obj} {g : String} (h : dGet inv g = none) :
    hostsOf g inv = [] := by
  simp [hostsOf, h]

theorem childrenOf_eq_of_none {inv : Obj} {g : String} (h : dGet inv g = none) :
    childrenOf g inv = [] := by
  simp [childrenOf, h]

theorem varsOf_eq_of_none {inv : Obj} {g : String} (h : dGet inv g = none) :
    varsOf g inv = [] := by
  simp [varsOf, h]

theorem allChildren_eq_of_dGet {inv : Obj} {cs : List Json}
    (h : dGet inv "all" = some (allShape cs)) : allChildren inv = cs := by
  simp [allChildren, h, allShape, dGet]

theorem WF_fresh : WF freshInventory := by
  refine ⟨by decide, ⟨[], by decide, by simp, by simp⟩, ?_, ?_⟩
  · refine ⟨[Json.str "ungrouped"], by decide, by simp, ?_, ?_⟩
    · intro x hx
      rw [List.mem_singleton] at hx
      exact ⟨"ungrouped", hx, by decide, by decide, by decide⟩
    · intro k hk h1 h2
      have hmem := dGet_isSome_iff.mp hk
      simp [freshInventory] at hmem
      rcases hmem with h | h | h
      · exact absurd h h1
      · exact absurd h h2
      · simp [h]
  · intro k v hkv h1 h2
    by_cases h3 : k = "ungrouped"
    · subst h3
      have hu : dGet freshInventory "ungrouped" = some (groupRec [] [] []) := by decide
      rw [hu] at hkv
      injection hkv with hkv
      exact ⟨[], [], [], hkv.symm, by simp, by simp, by simp⟩
    · exfalso
      have hk : (dGet freshInventory k).isSome = true := by rw [hkv]; rfl
      have hmem := dGet_isSome_iff.mp hk
      simp [freshInventory] at hmem
      rcases hmem with h | h | h
      · exact h1 h
      · exact h2 h
      · exact h3 h

theorem ensureGroup_spec {inv : Obj} {g : String} (h : WF inv)
    (hg1 : g ≠ "all") (hg2 : g ≠ "_meta") :
    ∃ inv', ensureGroup g inv = Res.ok inv' ∧ WF inv' ∧
      dGet inv' "_meta" = dGet inv "_meta" ∧
      dGet inv' "all" = some (allShape (appendIfAbsent (Json.str g) (allChildren inv))) ∧
      dGet inv' g = some (groupRec (hostsOf g inv) (varsOf g inv) (childrenOf g inv)) ∧
      (∀ k, k ≠ "all" → k ≠ g → dGet inv' k = dGet inv k) ∧
      (∀ k, (dGet inv' k).isSome = true ↔ ((dGet inv k).isSome = true ∨ k = g)) := by
  obtain ⟨cs, hall, hcsnd, hcsok, hcsrev⟩ := h.all_ok
  have hAC : allChildren inv = cs := allChildren_eq_of_dGet hall
  have hred : ensureGroup g inv =
      (if dHasKey (dSet inv "all" (allShape (appendIfAbsent (Json.str g) cs))) g
       then Res.ok (dSet inv "all" (allShape (appendIfAbsent (Json.str g) cs)))
       else Res.ok (dSet (dSet inv "all" (allShape (appendIfAbsent (Json.str g) cs))) g (groupRec [] [] []))) := by
    simp only [ensureGroup, hall]
    simp [allShape, dGet, dSet]
  have hkeys1 : ∀ k, (dGet (dSet inv "all" (allShape (appendIfAbsent (Json.str g) cs))) k).isSome
      = (dGet inv k).isSome := by
    intro k
    by_cases hk : k = "all"
    · subst hk
      rw [dGet_dSet_self, hall]
      rfl
    · rw [dGet_dSet_ne inv _ hk]
  have hhk : dHasKey (dSet inv "all" (allShape (appendIfAbsent (Json.str g) cs))) g
      = (dGet inv g).isSome := by
    simp only [dHasKey, hkeys1 g]
  have hmeta1 : dGet (dSet inv "all" (allShape (appendIfAbsent (Json.str g) cs))) "_meta"
      = dGet inv "_meta" := dGet_dSet_ne inv _ (by decide)
  cases hpres : dGet inv g with
  | some v =>
      obtain ⟨hs, vs, csg, hvshape, hhsnd, hcsgnd, hcsgok⟩ := h.groups_ok g v hpres hg2 hg1
      subst hvshape
      refine ⟨dSet inv "all" (allShape (appendIfAbsent (Json.str g) cs)), ?_, ?_, hmeta1, ?_, ?_, ?_, ?_⟩
      · rw [hred, hhk, hpres]
        rfl
      · -- well-formedness of the updated inventory
        have hmono : ∀ s, (dGet inv s).isSome = true →
            (dGet (dSet inv "all" (allShape (appendIfAbsent (Json.str g) cs))) s).isSome = true := by
          intro s hsome
          rw [hkeys1 s]
          exact hsome
        refine ⟨nodup_keys_dSet _ h.keys_nodup, ?_, ?_, ?_⟩
        · obtain ⟨hv, hm, hmnd, hmo⟩ := h.meta_ok
          exact ⟨hv, by rw [hmeta1, hm], hmnd, hmo⟩
        · refine ⟨appendIfAbsent (Json.str g) cs, dGet_dSet_self inv "all" _,
            nodup_appendIfAbsent hcsnd, ?_, ?_⟩
          · intro x hx
            rcases mem_appendIfAbsent.mp hx with hx | hx
            · exact childOK_mono hmono (hcsok x hx)
            · refine ⟨g, hx, hg2, hg1, ?_⟩
              rw [hkeys1 g, hpres]
              rfl
          · intro k hk h1 h2
            rw [hkeys1 k] at hk
            exact mem_appendIfAbsent.mpr (Or.inl (hcsrev k hk h1 h2))
        · intro k v' hkv h1 h2
          rw [dGet_dSet_ne inv _ h2] at hkv
          obtain ⟨hs', vs', cs', hsh, hn1, hn2, hok⟩ := h.groups_ok k v' hkv h1 h2
          exact ⟨hs', vs', cs', hsh, hn1, hn2, fun x hx => childOK_mono hmono (hok x hx)⟩
      · rw [dGet_dSet_self, hAC]
      · rw [dGet_dSet_ne inv _ hg1, hpres, hostsOf_eq_of_dGet hpres,
          varsOf_eq_of_dGet hpres, childrenOf_eq_of_dGet hpres]
      · intro k hk1 hk2
        exact dGet_dSet_ne inv _ hk1
      · intro k
        rw [hkeys1 k]
        constructor
        · exact fun hk => Or.inl hk
        · rintro (hk | rfl)
          · exact hk
          · rw [hpres]; rfl
  | none =>
      refine ⟨dSet (dSet inv "all" (allShape (appendIfAbsent (Json.str g) cs))) g (groupRec [] [] []),
        ?_, ?_, ?_, ?_, ?_, ?_, ?_⟩
      · rw [hred, hhk, hpres]
        rfl
      · -- well-formedness of the updated inventory (new group record created)
        have hmono : ∀ s, (dGet inv s).isSome = true →
            (dGet (dSet (dSet inv "all" (allShape (appendIfAbsent (Json.str g) cs))) g (groupRec [] [] [])) s).isSome = true := by
          intro s hsome
          rw [isSome_dGet_dSet]
          exact Or.inl (by rw [hkeys1 s]; exact hsome)
        refine ⟨nodup_keys_dSet _ (nodup_keys_dSet _ h.keys_nodup), ?_, ?_, ?_⟩
        · obtain ⟨hv, hm, hmnd, hmo⟩ := h.meta_ok
          refine ⟨hv, ?_, hmnd, hmo⟩
          rw [dGet_dSet_ne _ _ (Ne.symm hg2), hmeta1, hm]
        · refine ⟨appendIfAbsent (Json.str g) cs, ?_, nodup_appendIfAbsent hcsnd, ?_, ?_⟩
          · rw [dGet_dSet_ne _ _ (Ne.symm hg1), dGet_dSet_self]
          · intro x hx
            rcases mem_appendIfAbsent.mp hx with hx | hx
            · exact childOK_mono hmono (hcsok x hx)
            · refine ⟨g, hx, hg2, hg1, ?_⟩
              rw [dGet_dSet_self]
              rfl
          · intro k hk h1 h2
            rw [isSome_dGet_dSet] at hk
            rcases hk with hk | rfl
            · rw [hkeys1 k] at hk
              exact mem_appendIfAbsent.mpr (Or.inl (hcsrev k hk h1 h2))
            · exact self_mem_appendIfAbsent
        · intro k v' hkv h1 h2
          by_cases hk : k = g
          · subst hk
            rw [dGet_dSet_self] at hkv
            injection hkv with hkv
            exact ⟨[], [], [], hkv.symm, by simp, by simp, by simp⟩
          · rw [dGet_dSet_ne _ _ hk, dGet_dSet_ne inv _ h2] at hkv
            obtain ⟨hs', vs', cs', hsh, hn1, hn2, hok⟩ := h.groups_ok k v' hkv h1 h2
            exact ⟨hs', vs', cs', hsh, hn1, hn2, fun x hx => childOK_mono hmono (hok x hx)⟩
      · rw [dGet_dSet_ne _ _ (Ne.symm hg2), hmeta1]
      · rw [dGet_dSet_ne _ _ (Ne.symm hg1), dGet_dSet_self, hAC]
      · rw [dGet_dSet_self, hostsOf_eq_of_none hpres, varsOf_eq_of_none hpres,
          childrenOf_eq_of_none hpres]
      · intro k hk1 hk2
        rw [dGet_dSet_ne _ _ hk2, dGet_dSet_ne inv _ hk1]
      · intro k
        by_cases hk : k = g
        · subst hk
          rw [dGet_dSet_self]
          simp
        · rw [dGet_dSet_ne _ _ hk, hkeys1 k]
          simp [hk]

theorem WF_setGroupRec {inv : Obj} {g : String} (h : WF inv)
    (hg1 : g ≠ "all") (hg2 : g ≠ "_meta")
    {hs' : List Json} {vs' : Obj} {cs' : List Json}
    (hpres : (dGet inv g).isSome = true)
    (hn1 : hs'.Nodup) (hn2 : cs'.Nodup) (hok : ∀ x ∈ cs', childOK inv x) :
    WF (dSet inv g (groupRec hs' vs' cs')) := by
  have hkeys : ∀ k, (dGet (dSet inv g (groupRec hs' vs' cs')) k).isSome = (dGet inv k).isSome := by
    intro k
    by_cases hk : k = g
    · subst hk
      rw [dGet_dSet_self, hpres]
      rfl
    · rw [dGet_dSet_ne inv _ hk]
  have hmono : ∀ s, (dGet inv s).isSome = true →
      (dGet (dSet inv g (groupRec hs' vs' cs')) s).isSome = true := by
    intro s hsome
    rw [hkeys s]
    exact hsome
  refine ⟨nodup_keys_dSet _ h.keys_nodup, ?_, ?_, ?_⟩
  · obtain ⟨hv, hm, hmnd, hmo⟩ := h.meta_ok
    exact ⟨hv, by rw [dGet_dSet_ne inv _ (Ne.symm hg2), hm], hmnd, hmo⟩
  · obtain ⟨cs, hall, hcsnd, hcsok, hcsrev⟩ := h.all_ok
    refine ⟨cs, by rw [dGet_dSet_ne inv _ (Ne.symm hg1), hall], hcsnd,
      fun x hx => childOK_mono hmono (hcsok x hx), ?_⟩
    intro k hk h1 h2
    rw [hkeys k] at hk
    exact hcsrev k hk h1 h2
  · intro k v hkv h1 h2
    by_cases hk : k = g
    · subst hk
      rw [dGet_dSet_self] at hkv
      injection hkv with hkv
      exact ⟨hs', vs', cs', hkv.symm, hn1, hn2, fun x hx => childOK_mono hmono (hok x hx)⟩
    · rw [dGet_dSet_ne inv _ hk] at hkv
      obtain ⟨a, b, c, hsh, n1, n2, ok⟩ := h.groups_ok k v hkv h1 h2
      exact ⟨a, b, c, hsh, n1, n2, fun x hx => childOK_mono hmono (ok x hx)⟩

theorem WF_setHostvars {inv : Obj} {hv' : Obj} (h : WF inv)
    (hn : (hv'.map Prod.fst).Nodup) (ho : ∀ p ∈ hv', ∃ o, p.2 = Json.obj o) :
    WF (dSet inv "_meta" (metaShape hv')) := by
  obtain ⟨hv, hm, _, _⟩ := h.meta_ok
  have hpres : (dGet inv "_meta").isSome = true := by rw [hm]; rfl
  have hkeys : ∀ k, (dGet (dSet inv "_meta" (metaShape hv')) k).isSome = (dGet inv k).isSome := by
    intro k
    by_cases hk : k = "_meta"
    · subst hk
      rw [dGet_dSet_self, hpres]
      rfl
    · rw [dGet_dSet_ne inv _ hk]
  have hmono : ∀ s, (dGet inv s).isSome = true →
      (dGet (dSet inv "_meta" (metaShape hv')) s).isSome = true := by
    intro s hsome
    rw [hkeys s]
    exact hsome
  refine ⟨nodup_keys_dSet _ h.keys_nodup, ?_, ?_, ?_⟩
  · exact ⟨hv', dGet_dSet_self inv "_meta" _, hn, ho⟩
  · obtain ⟨cs, hall, hcsnd, hcsok, hcsrev⟩ := h.all_ok
    refine ⟨cs, by rw [dGet_dSet_ne inv _ (by decide), hall], hcsnd,
      fun x hx => childOK_mono hmono (hcsok x hx), ?_⟩
    intro k hk h1 h2
    rw [hkeys k] at hk
    exact hcsrev k hk h1 h2
  · intro k v hkv h1 h2
    rw [dGet_dSet_ne inv _ h1] at hkv
    obtain ⟨a, b, c, hsh, n1, n2, ok⟩ := h.groups_ok k v hkv h1 h2
    exact ⟨a, b, c, hsh, n1, n2, fun x hx => childOK_mono hmono (ok x hx)⟩

theorem stripChild_metaShape (g : String) (hv : Obj) :
    stripChild g (metaShape hv) = metaShape hv := by
  simp [stripChild, metaShape, dGet]

theorem stripChild_groupRec (g : String) (hs : List Json) (vs : Obj) (cs : List Json) :
    stripChild g (groupRec hs vs cs) = groupRec hs vs (listRemoveFirst (Json.str g) cs) := by
  by_cases hm : jmem (Json.str g) cs
  · simp [stripChild, groupRec, dGet, dSet, hm]
  · have : Json.str g ∉ cs := fun hx => hm (jmem_iff.mpr hx)
    simp [stripChild, groupRec, dGet, hm, listRemoveFirst_of_not_mem this]

theorem stripChild_allShape {g : String} {cs : List Json} (hg : Json.str g ∉ cs) :
    stripChild g (allShape cs) = allShape cs := by
  have : jmem (Json.str g) cs = false := by
    rcases Bool.eq_false_or_eq_true (jmem (Json.str g) cs) with hb | hb
    · exact absurd (jmem_iff.mp hb) hg
    · exact hb
  simp [stripChild, allShape, dGet, dSet, this]

theorem stripHost_metaShape (host : String) (hv : Obj) :
    stripHost host (metaShape hv) = metaShape hv := by
  simp [stripHost, metaShape, dGet]

theorem stripHost_allShape (host : String) (cs : List Json) :
    stripHost host (allShape cs) = allShape cs := by
  simp [stripHost, allShape, dGet]

theorem stripHost_groupRec (host : String) (hs : List Json) (vs : Obj) (cs : List Json) :
    stripHost host (groupRec hs vs cs) = groupRec (listRemoveFirst (Json.str host) hs) vs cs := by
  by_cases hm : jmem (Json.str host) hs
  · simp [stripHost, groupRec, dGet, dSet, hm]
  · have : Json.str host ∉ hs := fun hx => hm (jmem_iff.mpr hx)
    simp [stripHost, groupRec, dGet, hm, listRemoveFirst_of_not_mem this]

theorem dGet_map_keyed (f : String → Json → Json) (d : Obj) (k : String) :
    dGet (d.map fun kv => (kv.1, f kv.1 kv.2)) k = (dGet d k).map (f k) := by
  induction d with
  | nil => simp [dGet]
  | cons kv rest ih =>
      by_cases hk : kv.1 = k
      · subst hk
        simp [dGet, ih]
      · simp [dGet, hk, ih]

theorem keys_map_keyed (f : String → Json → Json) (d : Obj) :
    (d.map fun kv => (kv.1, f kv.1 kv.2)).map Prod.fst = d.map Prod.fst := by
  induction d with
  | nil => rfl
  | cons kv rest ih => simp [ih]

theorem hostvarsOf_eq_of_meta {inv inv' : Obj} (h : dGet inv' "_meta" = dGet inv "_meta") :
    hostvarsOf inv' = hostvarsOf inv := by
  simp [hostvarsOf, h]

theorem groupRec_inj {a d : List Json} {b e : Obj} {c f : List Json}
    (h : groupRec a b c = groupRec d e f) : a = d ∧ b = e ∧ c = f := by
  simp only [groupRec, Json.obj.injEq, List.cons.injEq, Prod.mk.injEq, and_true,
    true_and, Json.arr.injEq] at h
  exact h

theorem jUpdate_nil (base : Obj) : jUpdate base [] = base := rfl

theorem get_hosts_in_group_of_dGet {inv : Obj} {g : String} {hs : List Json} {vs : Obj}
    {cs : List Json} (h : dGet inv g = some (groupRec hs vs cs)) :
    get_hosts_in_group g inv = some (Json.arr hs) := by
  simp [get_hosts_in_group, h, groupRec, dGet]

theorem get_child_groups_of_dGet {inv : Obj} {g : String} {hs : List Json} {vs : Obj}
    {cs : List Json} (h : dGet inv g = some (groupRec hs vs cs)) :
    get_child_groups g inv = some (Json.arr cs) := by
  simp [get_child_groups, h, groupRec, dGet]

theorem add_group_vars_spec {inv : Obj} {g : String} (gv : Obj) (h : WF inv)
    (hg1 : g ≠ "all") (hg2 : g ≠ "_meta") :
    ∃ inv', add_group_vars g gv inv = Res.ok inv' ∧ WF inv' ∧
      dGet inv' "_meta" = dGet inv "_meta" ∧
      dGet inv' "all" = some (allShape (appendIfAbsent (Json.str g) (allChildren inv))) ∧
      dGet inv' g = some (groupRec (hostsOf g inv) (jUpdate (varsOf g inv) gv) (childrenOf g inv)) ∧
      (∀ k, k ≠ "all" → k ≠ g → dGet inv' k = dGet inv k) ∧
      (∀ k, (dGet inv' k).isSome = true ↔ ((dGet inv k).isSome = true ∨ k = g)) := by
  obtain ⟨inv1, he, hwf1, hmeta1, hall1, hrec1, hframe1, hkeys1⟩ := ensureGroup_spec h hg1 hg2
  have hred : add_group_vars g gv inv =
      Res.ok (dSet inv1 g (groupRec (hostsOf g inv) (jUpdate (varsOf g inv) gv) (childrenOf g inv))) := by
    simp only [add_group_vars, he]
    rw [hrec1]
    simp [groupRec, dHasKey, dGet, dSet]
  obtain ⟨a, b, c, hsh, hn1, hn2, hok⟩ := hwf1.groups_ok g _ hrec1 hg2 hg1
  obtain ⟨ha, hb, hc⟩ := groupRec_inj hsh
  have hpres1 : (dGet inv1 g).isSome = true := by rw [hrec1]; rfl
  refine ⟨_, hred, ?_, ?_, ?_, ?_, ?_, ?_⟩
  · exact WF_setGroupRec hwf1 hg1 hg2 hpres1 (ha ▸ hn1) (hc ▸ hn2) (fun x hx => hok x (hc ▸ hx))
  · rw [dGet_dSet_ne _ _ (Ne.symm hg2), hmeta1]
  · rw [dGet_dSet_ne _ _ (Ne.symm hg1), hall1]
  · rw [dGet_dSet_self]
  · intro k hk1 hk2
    rw [dGet_dSet_ne _ _ hk2, hframe1 k hk1 hk2]
  · intro k
    rw [isSome_dGet_dSet]
    rw [hkeys1 k]
    constructor
    · rintro ((hk | hk) | rfl)
      · exact Or.inl hk
      · exact Or.inr hk
      · exact Or.inr rfl
    · rintro (hk | rfl)
      · exact Or.inl (Or.inl hk)
      · exact Or.inr rfl

theorem add_group_spec {inv : Obj} {g : String} (gv : Obj) (h : WF inv)
    (hg1 : g ≠ "all") (hg2 : g ≠ "_meta") :
    ∃ inv', add_group g gv inv = Res.ok inv' ∧ WF inv' ∧
      dGet inv' "_meta" = dGet inv "_meta" ∧
      dGet inv' "all" = some (allShape (appendIfAbsent (Json.str g) (allChildren inv))) ∧
      dGet inv' g = some (groupRec (hostsOf g inv) (jUpdate (varsOf g inv) gv) (childrenOf g inv)) ∧
      (∀ k, k ≠ "all" → k ≠ g → dGet inv' k = dGet inv k) ∧
      (∀ k, (dGet inv' k).isSome = true ↔ ((dGet inv k).isSome = true ∨ k = g)) := by
  obtain ⟨inv1, he, hwf1, hmeta1, hall1, hrec1, hframe1, hkeys1⟩ := ensureGroup_spec h hg1 hg2
  by_cases hgv : gv.isEmpty
  · have hgv' : gv = [] := List.isEmpty_iff.mp hgv
    subst hgv'
    refine ⟨inv1, ?_, hwf1, hmeta1, hall1, ?_, hframe1, hkeys1⟩
    · simp [add_group, he]
    · rw [hrec1, jUpdate_nil]
  · have hred : add_group g gv inv = add_group_vars g gv inv1 := by
      simp [add_group, he, hgv]
    obtain ⟨inv2, he2, hwf2, hmeta2, hall2, hrec2, hframe2, hkeys2⟩ :=
      add_group_vars_spec gv hwf1 hg1 hg2
    have hH : hostsOf g inv1 = hostsOf g inv := by
      rw [hostsOf_eq_of_dGet hrec1]
    have hV : varsOf g inv1 = varsOf g inv := by
      rw [varsOf_eq_of_dGet hrec1]
    have hC : childrenOf g inv1 = childrenOf g inv := by
      rw [childrenOf_eq_of_dGet hrec1]
    have hAC1 : allChildren inv1 = appendIfAbsent (Json.str g) (allChildren inv) :=
      allChildren_eq_of_dGet hall1
    refine ⟨inv2, by rw [hred, he2], hwf2, by rw [hmeta2, hmeta1], ?_, ?_, ?_, ?_⟩
    · rw [hall2, hAC1, appendIfAbsent_idem]
    · rw [hrec2, hH, hV, hC]
    · intro k hk1 hk2
      rw [hframe2 k hk1 hk2, hframe1 k hk1 hk2]
    · intro k
      rw [hkeys2 k, hkeys1 k]
      constructor
      · rintro ((hk | rfl) | rfl)
        · exact Or.inl hk
        · exact Or.inr rfl
        · exact Or.inr rfl
      · rintro (hk | rfl)
        · exact Or.inl (Or.inl hk)
        · exact Or.inr rfl

theorem hvUpdate_eq {hv : Obj} (ho : ∀ p ∈ hv, ∃ o, p.2 = Json.obj o)
    (host : String) (vars : Obj) :
    hvUpdate host vars hv = some (dSet hv host (Json.obj (jUpdate (hvEntryObj host hv) vars))) := by
  cases hcur : dGet hv host with
  | none => simp [hvUpdate, hcur, hvEntryObj]
  | some v =>
      obtain ⟨o, ho'⟩ := ho _ (dGet_mem hcur)
      simp only at ho'
      subst ho'
      simp [hvUpdate, hcur, hvEntryObj]

theorem hostvars_write {inv : Obj} (h : WF inv) (host : String) (vars : Obj) :
    ∃ hv, dGet inv "_meta" = some (metaShape hv) ∧
      hvUpdate host vars hv = some (dSet hv host (Json.obj (jUpdate (hvEntryObj host hv) vars))) ∧
      hostvarsOf inv = hv ∧
      WF (dSet inv "_meta" (metaShape (dSet hv host (Json.obj (jUpdate (hvEntryObj host hv) vars))))) ∧
      (∀ k, k ≠ "_meta" →
        dGet (dSet inv "_meta" (metaShape (dSet hv host (Json.obj (jUpdate (hvEntryObj host hv) vars))))) k = dGet inv k) ∧
      hostvarsOf (dSet inv "_meta" (metaShape (dSet hv host (Json.obj (jUpdate (hvEntryObj host hv) vars))))) =
        dSet hv host (Json.obj (jUpdate (hvEntryObj host hv) vars)) ∧
      (∀ k, (dGet (dSet inv "_meta" (metaShape (dSet hv host (Json.obj (jUpdate (hvEntryObj host hv) vars))))) k).isSome
        = (dGet inv k).isSome) := by
  obtain ⟨hv, hm, hmnd, hmo⟩ := h.meta_ok
  have hpres : (dGet inv "_meta").isSome = true := by rw [hm]; rfl
  refine ⟨hv, hm, hvUpdate_eq hmo host vars, ?_, ?_, ?_, ?_, ?_⟩
  · simp [hostvarsOf, hm, metaShape, dGet]
  · refine WF_setHostvars h (nodup_keys_dSet _ hmnd) ?_
    intro p hp
    rcases mem_dSet hp with hp | hp
    · exact ⟨jUpdate (hvEntryObj host hv) vars, by rw [hp]⟩
    · exact hmo p hp
  · intro k hk
    exact dGet_dSet_ne inv _ hk
  · simp [hostvarsOf, dGet_dSet_self, metaShape, dGet]
  · intro k
    by_cases hk : k = "_meta"
    · subst hk
      rw [dGet_dSet_self, hpres]
      rfl
    · rw [dGet_dSet_ne inv _ hk]

theorem groupAppendHost_spec {inv : Obj} {g : String} {hs : List Json} {vs : Obj}
    {cs : List Json} (h : WF inv) (hg1 : g ≠ "all") (hg2 : g ≠ "_meta")
    (hrec : dGet inv g = some (groupRec hs vs cs)) (host : String) :
    ∃ inv', groupAppendHost host g inv = Res.ok inv' ∧ WF inv' ∧
      dGet inv' g = some (groupRec (appendIfAbsent (Json.str host) hs) vs cs) ∧
      (∀ k, k ≠ g → dGet inv' k = dGet inv k) ∧
      (∀ k, (dGet inv' k).isSome = (dGet inv k).isSome) := by
  obtain ⟨a, b, c, hsh, hn1, hn2, hok⟩ := h.groups_ok g _ hrec hg2 hg1
  obtain ⟨ha, hb, hc⟩ := groupRec_inj hsh
  subst ha; subst hb; subst hc
  have hred : groupAppendHost host g inv =
      Res.ok (dSet inv g (groupRec (appendIfAbsent (Json.str host) hs) vs cs)) := by
    simp only [groupAppendHost, hrec]
    simp [groupRec, dGet, dSet]
  have hpres : (dGet inv g).isSome = true := by rw [hrec]; rfl
  refine ⟨_, hred, ?_, dGet_dSet_self inv g _, fun k hk => dGet_dSet_ne inv _ hk, ?_⟩
  · exact WF_setGroupRec h hg1 hg2 hpres (nodup_appendIfAbsent hn1) hn2 hok
  · intro k
    by_cases hk : k = g
    · subst hk
      rw [dGet_dSet_self, hpres]
      rfl
    · rw [dGet_dSet_ne inv _ hk]

theorem ungroupedAppendHost_eq (host : String) (inv : Obj) :
    ungroupedAppendHost host inv = groupAppendHost host "ungrouped" inv := rfl

theorem ungroupedAppendHost_err {inv : Obj} (h : dGet inv "ungrouped" = none) (host : String) :
    ungroupedAppendHost host inv = Res.err inv := by
  simp [ungroupedAppendHost, h]

theorem hostsOf_congr {inv inv' : Obj} {g : String} (h : dGet inv' g = dGet inv g) :
    hostsOf g inv' = hostsOf g inv := by
  simp [hostsOf, h]

theorem varsOf_congr {inv inv' : Obj} {g : String} (h : dGet inv' g = dGet inv g) :
    varsOf g inv' = varsOf g inv := by
  simp [varsOf, h]

theorem childrenOf_congr {inv inv' : Obj} {g : String} (h : dGet inv' g = dGet inv g) :
    childrenOf g inv' = childrenOf g inv := by
  simp [childrenOf, h]

theorem allChildren_congr {inv inv' : Obj} (h : dGet inv' "all" = dGet inv "all") :
    allChildren inv' = allChildren inv := by
  simp [allChildren, h]

theorem add_host_group_spec {inv : Obj} {g : String} (h : WF inv)
    (hg0 : g ≠ "") (hg1 : g ≠ "all") (hg2 : g ≠ "_meta") (host : String) (vars gv : Obj) :
    ∃ inv', add_host host (some g) vars gv inv = Res.ok inv' ∧ WF inv' ∧
      dGet inv' g = some (groupRec (appendIfAbsent (Json.str host) (hostsOf g inv))
        (jUpdate (varsOf g inv) gv) (childrenOf g inv)) ∧
      dGet inv' "all" = some (allShape (appendIfAbsent (Json.str g) (allChildren inv))) ∧
      hostvarsOf inv' = dSet (hostvarsOf inv) host
        (Json.obj (jUpdate (hvEntryObj host (hostvarsOf inv)) vars)) ∧
      (∀ k, k ≠ "_meta" → k ≠ "all" → k ≠ g → dGet inv' k = dGet inv k) ∧
      (∀ k, (dGet inv' k).isSome = true ↔ ((dGet inv k).isSome = true ∨ k = g)) := by
  obtain ⟨hv, hm, hupd, hhveq, hwfs1, hframes1, hhvs1, hkeyss1⟩ := hostvars_write h host vars
  have hred : add_host host (some g) vars gv inv =
      (match add_group g gv (dSet inv "_meta" (metaShape (dSet hv host (Json.obj (jUpdate (hvEntryObj host hv) vars))))) with
       | Res.err i => Res.err i
       | Res.ok inv2 => groupAppendHost host g inv2) := by
    simp only [add_host, hm, metaShape]
    have h1 : dGet [("hostvars", Json.obj hv)] "hostvars" = some (Json.obj hv) := by
      simp [dGet]
    have h2 : dSet [("hostvars", Json.obj hv)] "hostvars"
        (Json.obj (dSet hv host (Json.obj (jUpdate (hvEntryObj host hv) vars)))) =
        [("hostvars", Json.obj (dSet hv host (Json.obj (jUpdate (hvEntryObj host hv) vars))))] := by
      simp [dSet]
    simp [h1, hupd, hg0, h2]
  obtain ⟨inv2, ha2, hwf2, hmeta2, hall2, hrec2, hframe2, hkeys2⟩ := add_group_spec gv hwfs1 hg1 hg2
  have hgs1 : dGet (dSet inv "_meta" (metaShape (dSet hv host (Json.obj (jUpdate (hvEntryObj host hv) vars))))) g = dGet inv g :=
    hframes1 g hg2
  have halls1 : dGet (dSet inv "_meta" (metaShape (dSet hv host (Json.obj (jUpdate (hvEntryObj host hv) vars))))) "all" = dGet inv "all" :=
    hframes1 "all" (by decide)
  rw [hostsOf_congr hgs1, varsOf_congr hgs1, childrenOf_congr hgs1] at hrec2
  rw [allChildren_congr halls1] at hall2
  obtain ⟨inv3, ha3, hwf3, hrec3, hframe3, hkeys3⟩ := groupAppendHost_spec hwf2 hg1 hg2 hrec2 host
  refine ⟨inv3, ?_, hwf3, ?_, ?_, ?_, ?_, ?_⟩
  · rw [hred, ha2]
    exact ha3
  · exact hrec3
  · rw [hframe3 "all" (Ne.symm hg1), hall2]
  · have hmeta3 : dGet inv3 "_meta" = dGet inv2 "_meta" := hframe3 "_meta" (Ne.symm hg2)
    rw [hostvarsOf_eq_of_meta hmeta3, hostvarsOf_eq_of_meta hmeta2, hhvs1, hhveq]
  · intro k hk1 hk2 hk3
    rw [hframe3 k hk3, hframe2 k hk2 hk3, hframes1 k hk1]
  · intro k
    rw [hkeys3 k, hkeys2 k, hkeyss1 k]

theorem add_host_ungrouped_red {inv : Obj} {go : Option String} (h : WF inv)
    (hgo : go = none ∨ go = some "") (host : String) (vars gv : Obj) :
    ∃ hv, dGet inv "_meta" = some (metaShape hv) ∧ hostvarsOf inv = hv ∧
      add_host host go vars gv inv =
        ungroupedAppendHost host (dSet inv "_meta" (metaShape (dSet hv host (Json.obj (jUpdate (hvEntryObj host hv) vars))))) ∧
      WF (dSet inv "_meta" (metaShape (dSet hv host (Json.obj (jUpdate (hvEntryObj host hv) vars))))) ∧
      (∀ k, k ≠ "_meta" →
        dGet (dSet inv "_meta" (metaShape (dSet hv host (Json.obj (jUpdate (hvEntryObj host hv) vars))))) k = dGet inv k) ∧
      hostvarsOf (dSet inv "_meta" (metaShape (dSet hv host (Json.obj (jUpdate (hvEntryObj host hv) vars))))) =
        dSet hv host (Json.obj (jUpdate (hvEntryObj host hv) vars)) ∧
      (∀ k, (dGet (dSet inv "_meta" (metaShape (dSet hv host (Json.obj (jUpdate (hvEntryObj host hv) vars))))) k).isSome
        = (dGet inv k).isSome) := by
  obtain ⟨hv, hm, hupd, hhveq, hwfs1, hframes1, hhvs1, hkeyss1⟩ := hostvars_write h host vars
  refine ⟨hv, hm, hhveq, ?_, hwfs1, hframes1, hhvs1, hkeyss1⟩
  have h1 : dGet [("hostvars", Json.obj hv)] "hostvars" = some (Json.obj hv) := by
    simp [dGet]
  have h2 : dSet [("hostvars", Json.obj hv)] "hostvars"
      (Json.obj (dSet hv host (Json.obj (jUpdate (hvEntryObj host hv) vars)))) =
      [("hostvars", Json.obj (dSet hv host (Json.obj (jUpdate (hvEntryObj host hv) vars))))] := by
    simp [dSet]
  rcases hgo with rfl | rfl
  · simp only [add_host, hm, metaShape]
    simp [h1, hupd, h2]
  · simp only [add_host, hm, metaShape]
    simp [h1, hupd, h2]

theorem add_host_ungrouped_spec {inv : Obj} {go : Option String} (h : WF inv)
    (hgo : go = none ∨ go = some "") {uhs : List Json} {uvs : Obj} {ucs : List Json}
    (hu : dGet inv "ungrouped" = some (groupRec uhs uvs ucs)) (host : String) (vars gv : Obj) :
    ∃ inv', add_host host go vars gv inv = Res.ok inv' ∧ WF inv' ∧
      dGet inv' "ungrouped" = some (groupRec (appendIfAbsent (Json.str host) uhs) uvs ucs) ∧
      hostvarsOf inv' = dSet (hostvarsOf inv) host
        (Json.obj (jUpdate (hvEntryObj host (hostvarsOf inv)) vars)) ∧
      (∀ k, k ≠ "_meta" → k ≠ "ungrouped" → dGet inv' k = dGet inv k) ∧
      (∀ k, (dGet inv' k).isSome = (dGet inv k).isSome) := by
  obtain ⟨hv, hm, hhveq, hred, hwfs1, hframes1, hhvs1, hkeyss1⟩ :=
    add_host_ungrouped_red h hgo host vars gv
  have hus1 : dGet (dSet inv "_meta" (metaShape (dSet hv host (Json.obj (jUpdate (hvEntryObj host hv) vars))))) "ungrouped" = some (groupRec uhs uvs ucs) := by
    rw [hframes1 "ungrouped" (by decide)]
    exact hu
  obtain ⟨inv', ha, hwf, hrec, hframe, hkeys⟩ :=
    groupAppendHost_spec hwfs1 (by decide) (by decide) hus1 host
  rw [← ungroupedAppendHost_eq] at ha
  refine ⟨inv', by rw [hred, ha], hwf, hrec, ?_, ?_, ?_⟩
  · have hmeta' : dGet inv' "_meta" =
        dGet (dSet inv "_meta" (metaShape (dSet hv host (Json.obj (jUpdate (hvEntryObj host hv) vars))))) "_meta" :=
      hframe "_meta" (by decide)
    rw [hostvarsOf_eq_of_meta hmeta', hhvs1, hhveq]
  · intro k hk1 hk2
    rw [hframe k hk2, hframes1 k hk1]
  · intro k
    rw [hkeys k, hkeyss1 k]

theorem add_host_ungrouped_err {inv : Obj} {go : Option String} (h : WF inv)
    (hgo : go = none ∨ go = some "") (hu : dGet inv "ungrouped" = none)
    (host : String) (vars gv : Obj) :
    ∃ inv', add_host host go vars gv inv = Res.err inv' ∧ WF inv' := by
  obtain ⟨hv, hm, hhveq, hred, hwfs1, hframes1, hhvs1, hkeyss1⟩ :=
    add_host_ungrouped_red h hgo host vars gv
  have hus1 : dGet (dSet inv "_meta" (metaShape (dSet hv host (Json.obj (jUpdate (hvEntryObj host hv) vars))))) "ungrouped" = none := by
    rw [hframes1 "ungrouped" (by decide)]
    exact hu
  exact ⟨_, by rw [hred, ungroupedAppendHost_err hus1], hwfs1⟩

theorem add_host_resWF {inv : Obj} {go : Option String} (h : WF inv) (hok : okName go)
    (host : String) (vars gv : Obj) :
    WF (resState (add_host host go vars gv inv)) := by
  have hbr : (go = none ∨ go = some "") ∨ ∃ g, go = some g ∧ g ≠ "" ∧ g ≠ "all" ∧ g ≠ "_meta" := by
    cases go with
    | none => exact Or.inl (Or.inl rfl)
    | some g =>
        by_cases hg : g = ""
        · exact Or.inl (Or.inr (by rw [hg]))
        · exact Or.inr ⟨g, rfl, hg, hok.1, hok.2⟩
  rcases hbr with hgo | ⟨g, rfl, hg0, hg1, hg2⟩
  · cases hu : dGet inv "ungrouped" with
    | none =>
        obtain ⟨inv', ha, hwf⟩ := add_host_ungrouped_err h hgo hu host vars gv
        rw [ha]
        exact hwf
    | some v =>
        obtain ⟨uhs, uvs, ucs, hsh, -, -, -⟩ := h.groups_ok "ungrouped" v hu (by decide) (by decide)
        subst hsh
        obtain ⟨inv', ha, hwf, -, -, -, -⟩ := add_host_ungrouped_spec h hgo hu host vars gv
        rw [ha]
        exact hwf
  · obtain ⟨inv', ha, hwf, -, -, -, -, -⟩ := add_host_group_spec h hg0 hg1 hg2 host vars gv
    rw [ha]
    exact hwf

theorem add_host_to_group_plain {inv : Obj} {go : Option String} (h : WF inv)
    (hgo : go = none ∨ go = some "") (host : String) (vars gv : Obj) :
    add_host_to_group host go vars gv inv = add_host host go vars gv inv := by
  obtain ⟨hv, hm, hupd, -, -, -, -, -⟩ := hostvars_write h host vars
  have h1 : dGet [("hostvars", Json.obj hv)] "hostvars" = some (Json.obj hv) := by
    simp [dGet]
  rcases hgo with rfl | rfl
  · simp [add_host_to_group, add_host, hm, metaShape, h1, hupd]
  · simp [add_host_to_group, add_host, hm, metaShape, h1, hupd]

theorem add_host_to_group_named_red {inv : Obj} {g : String} (h : WF inv)
    (hg0 : g ≠ "") (hg1 : g ≠ "all") (hg2 : g ≠ "_meta") (host : String) (vars gv : Obj) :
    ∃ inv2, WF inv2 ∧
      dGet inv2 g = some (groupRec (hostsOf g inv)
        (jUpdate (varsOf g inv) gv) (childrenOf g inv)) ∧
      dGet inv2 "all" = some (allShape (appendIfAbsent (Json.str g) (allChildren inv))) ∧
      hostvarsOf inv2 = dSet (hostvarsOf inv) host
        (Json.obj (jUpdate (hvEntryObj host (hostvarsOf inv)) vars)) ∧
      (∀ k, k ≠ "_meta" → k ≠ "all" → k ≠ g → dGet inv2 k = dGet inv k) ∧
      (∀ k, (dGet inv2 k).isSome = true ↔ ((dGet inv k).isSome = true ∨ k = g)) ∧
      (dGet inv2 "ungrouped" = none →
        add_host_to_group host (some g) vars gv inv = Res.err inv2) ∧
      (∀ uhs uvs ucs, dGet inv2 "ungrouped" = some (groupRec uhs uvs ucs) →
        add_host_to_group host (some g) vars gv inv = groupAppendHost host g
          (if jmem (Json.str host) uhs then
            dSet inv2 "ungrouped" (groupRec (listRemoveFirst (Json.str host) uhs) uvs ucs)
           else inv2)) := by
  obtain ⟨hv, hm, hupd, hhveq, hwfs1, hframes1, hhvs1, hkeyss1⟩ := hostvars_write h host vars
  obtain ⟨inv2, ha2, hwf2, hmeta2, hall2, hrec2, hframe2, hkeys2⟩ := add_group_spec gv hwfs1 hg1 hg2
  have hgs1 : dGet (dSet inv "_meta" (metaShape (dSet hv host (Json.obj (jUpdate (hvEntryObj host hv) vars))))) g = dGet inv g :=
    hframes1 g hg2
  have halls1 : dGet (dSet inv "_meta" (metaShape (dSet hv host (Json.obj (jUpdate (hvEntryObj host hv) vars))))) "all" = dGet inv "all" :=
    hframes1 "all" (by decide)
  rw [hostsOf_congr hgs1, varsOf_congr hgs1, childrenOf_congr hgs1] at hrec2
  rw [allChildren_congr halls1] at hall2
  have h1 : dGet [("hostvars", Json.obj hv)] "hostvars" = some (Json.obj hv) := by
    simp [dGet]
  have h2 : dSet [("hostvars", Json.obj hv)] "hostvars"
      (Json.obj (dSet hv host (Json.obj (jUpdate (hvEntryObj host hv) vars)))) =
      [("hostvars", Json.obj (dSet hv host (Json.obj (jUpdate (hvEntryObj host hv) vars))))] := by
    simp [dSet]
  have ha2x := ha2
  simp only [metaShape] at ha2x
  have hframe2x : ∀ k, k ≠ "_meta" → k ≠ "all" → k ≠ g → dGet inv2 k = dGet inv k := by
    intro k h1 h2 h3
    rw [hframe2 k h2 h3, hframes1 k h1]
  have hkeys2x : ∀ k, (dGet inv2 k).isSome = true ↔ ((dGet inv k).isSome = true ∨ k = g) := by
    intro k
    rw [hkeys2 k, hkeyss1 k]
  have hbase : add_host_to_group host (some g) vars gv inv =
      (match dGet inv2 "ungrouped" with
       | some (Json.obj urec) =>
           (match dGet urec "hosts" with
            | some (Json.arr uhs) =>
                groupAppendHost host g
                  (if jmem (Json.str host) uhs then
                    dSet inv2 "ungrouped" (Json.obj (dSet urec "hosts" (Json.arr (listRemoveFirst (Json.str host) uhs))))
                   else inv2)
            | some _ => Res.err inv2
            | none => Res.err inv2)
       | some _ => Res.err inv2
       | none => Res.err inv2) := by
    simp only [add_host_to_group, hm, metaShape]
    simp [h1, hupd, hg0, h2, ha2x]
  refine ⟨inv2, hwf2, hrec2, hall2, ?_, hframe2x, hkeys2x, ?_, ?_⟩
  · rw [hostvarsOf_eq_of_meta hmeta2, hhvs1, hhveq]
  · intro hnone
    rw [hbase, hnone]
  · intro uhs uvs ucs hu2
    rw [hbase, hu2]
    simp [groupRec, dGet, dSet]

theorem add_host_to_group_named_spec {inv : Obj} {g : String} (h : WF inv)
    (hg0 : g ≠ "") (hg1 : g ≠ "all") (hg2 : g ≠ "_meta") (hg3 : g ≠ "ungrouped")
    {uhs : List Json} {uvs : Obj} {ucs : List Json}
    (hu : dGet inv "ungrouped" = some (groupRec uhs uvs ucs))
    (host : String) (vars gv : Obj) :
    ∃ inv', add_host_to_group host (some g) vars gv inv = Res.ok inv' ∧ WF inv' ∧
      dGet inv' g = some (groupRec (appendIfAbsent (Json.str host) (hostsOf g inv))
        (jUpdate (varsOf g inv) gv) (childrenOf g inv)) ∧
      dGet inv' "ungrouped" = some (groupRec (listRemoveFirst (Json.str host) uhs) uvs ucs) ∧
      dGet inv' "all" = some (allShape (appendIfAbsent (Json.str g) (allChildren inv))) ∧
      hostvarsOf inv' = dSet (hostvarsOf inv) host
        (Json.obj (jUpdate (hvEntryObj host (hostvarsOf inv)) vars)) ∧
      (∀ k, k ≠ "_meta" → k ≠ "all" → k ≠ g → k ≠ "ungrouped" → dGet inv' k = dGet inv k) ∧
      (∀ k, (dGet inv' k).isSome = true ↔ ((dGet inv k).isSome = true ∨ k = g)) := by
  obtain ⟨inv2, hwf2, hrec2, hall2, hhv2, hframe2, hkeys2, -, hredB⟩ :=
    add_host_to_group_named_red h hg0 hg1 hg2 host vars gv
  have hu2 : dGet inv2 "ungrouped" = some (groupRec uhs uvs ucs) := by
    rw [hframe2 "ungrouped" (by decide) (by decide) (Ne.symm hg3)]
    exact hu
  obtain ⟨a, b, c, hsh, hnd1, hnd2, hok⟩ := hwf2.groups_ok "ungrouped" _ hu2 (by decide) (by decide)
  obtain ⟨haa, hbb, hcc⟩ := groupRec_inj hsh
  subst haa; subst hbb; subst hcc
  have hupres : (dGet inv2 "ungrouped").isSome = true := by rw [hu2]; rfl
  have hred := hredB uhs uvs ucs hu2
  -- the state after the eviction from ungrouped.hosts
  have h3 : WF (if jmem (Json.str host) uhs then
        dSet inv2 "ungrouped" (groupRec (listRemoveFirst (Json.str host) uhs) uvs ucs)
       else inv2) ∧
      dGet (if jmem (Json.str host) uhs then
        dSet inv2 "ungrouped" (groupRec (listRemoveFirst (Json.str host) uhs) uvs ucs)
       else inv2) "ungrouped" = some (groupRec (listRemoveFirst (Json.str host) uhs) uvs ucs) ∧
      (∀ k, k ≠ "ungrouped" →
        dGet (if jmem (Json.str host) uhs then
          dSet inv2 "ungrouped" (groupRec (listRemoveFirst (Json.str host) uhs) uvs ucs)
         else inv2) k = dGet inv2 k) ∧
      (∀ k, (dGet (if jmem (Json.str host) uhs then
        dSet inv2 "ungrouped" (groupRec (listRemoveFirst (Json.str host) uhs) uvs ucs)
       else inv2) k).isSome = (dGet inv2 k).isSome) := by
    by_cases hjm : jmem (Json.str host) uhs
    · simp only [if_pos hjm]
      refine ⟨WF_setGroupRec hwf2 (by decide) (by decide) hupres (nodup_listRemoveFirst hnd1) hnd2 hok,
        dGet_dSet_self _ _ _, fun k hk => dGet_dSet_ne _ _ hk, ?_⟩
      intro k
      by_cases hk : k = "ungrouped"
      · subst hk
        rw [dGet_dSet_self, hupres]
        rfl
      · rw [dGet_dSet_ne _ _ hk]
    · have hnm : Json.str host ∉ uhs := fun hx => hjm (jmem_iff.mpr hx)
      have hrm : listRemoveFirst (Json.str host) uhs = uhs := listRemoveFirst_of_not_mem hnm
      simp only [if_neg hjm]
      refine ⟨hwf2, ?_, fun k _ => trivial, fun k => trivial⟩
      rw [hrm]
      exact hu2
  obtain ⟨h3wf, h3u, h3frame, h3keys⟩ := h3
  have hrec3 : dGet (if jmem (Json.str host) uhs then
      dSet inv2 "ungrouped" (groupRec (listRemoveFirst (Json.str host) uhs) uvs ucs)
     else inv2) g = some (groupRec (hostsOf g inv) (jUpdate (varsOf g inv) gv) (childrenOf g inv)) := by
    rw [h3frame g hg3]
    exact hrec2
  obtain ⟨inv4, ha4, hwf4, hrec4, hframe4, hkeys4⟩ := groupAppendHost_spec h3wf hg1 hg2 hrec3 host
  refine ⟨inv4, by rw [hred, ha4], hwf4, hrec4, ?_, ?_, ?_, ?_, ?_⟩
  · rw [hframe4 "ungrouped" (Ne.symm hg3), h3u]
  · rw [hframe4 "all" (Ne.symm hg1), h3frame "all" (by decide), hall2]
  · have hm4 : dGet inv4 "_meta" = dGet inv2 "_meta" := by
      rw [hframe4 "_meta" (Ne.symm hg2), h3frame "_meta" (by decide)]
    rw [hostvarsOf_eq_of_meta hm4, hhv2]
  · intro k hk1 hk2 hk3 hk4
    rw [hframe4 k hk3, h3frame k hk4, hframe2 k hk1 hk2 hk3]
  · intro k
    rw [hkeys4 k, h3keys k]
    exact hkeys2 k

theorem add_host_to_group_resWF {inv : Obj} {go : Option String} (h : WF inv)
    (hok : okName go) (host : String) (vars gv : Obj) :
    WF (resState (add_host_to_group host go vars gv inv)) := by
  have hbr : (go = none ∨ go = some "") ∨ ∃ g, go = some g ∧ g ≠ "" ∧ g ≠ "all" ∧ g ≠ "_meta" := by
    cases go with
    | none => exact Or.inl (Or.inl rfl)
    | some g =>
        by_cases hg : g = ""
        · exact Or.inl (Or.inr (by rw [hg]))
        · exact Or.inr ⟨g, rfl, hg, hok.1, hok.2⟩
  rcases hbr with hgo | ⟨g, rfl, hg0, hg1, hg2⟩
  · rw [add_host_to_group_plain h hgo host vars gv]
    exact add_host_resWF h (by rcases hgo with rfl | rfl <;> simp [okName]) host vars gv
  · obtain ⟨inv2, hwf2, hrec2, hall2, hhv2, hframe2, hkeys2, hredA, hredB⟩ :=
      add_host_to_group_named_red h hg0 hg1 hg2 host vars gv
    cases hu2 : dGet inv2 "ungrouped" with
    | none =>
        rw [hredA hu2]
        exact hwf2
    | some v =>
        obtain ⟨uhs, uvs, ucs, hsh, hnd1, hnd2, hok'⟩ :=
          hwf2.groups_ok "ungrouped" v hu2 (by decide) (by decide)
        subst hsh
        have hupres : (dGet inv2 "ungrouped").isSome = true := by rw [hu2]; rfl
        have h3wf : WF (if jmem (Json.str host) uhs then
            dSet inv2 "ungrouped" (groupRec (listRemoveFirst (Json.str host) uhs) uvs ucs)
           else inv2) := by
          by_cases hjm : jmem (Json.str host) uhs
          · simp only [if_pos hjm]
            exact WF_setGroupRec hwf2 (by decide) (by decide) hupres
              (nodup_listRemoveFirst hnd1) hnd2 hok'
          · simp only [if_neg hjm]
            exact hwf2
        have h3pres : (dGet (if jmem (Json.str host) uhs then
            dSet inv2 "ungrouped" (groupRec (listRemoveFirst (Json.str host) uhs) uvs ucs)
           else inv2) g).isSome = true := by
          by_cases hjm : jmem (Json.str host) uhs
          · simp only [if_pos hjm]
            rw [isSome_dGet_dSet]
            exact Or.inl (by rw [hrec2]; rfl)
          · simp only [if_neg hjm]
            rw [hrec2]
            rfl
        obtain ⟨w, hw⟩ := Option.isSome_iff_exists.mp h3pres
        obtain ⟨a, b, c, hsh3, -, -, -⟩ := h3wf.groups_ok g w hw hg2 hg1
        subst hsh3
        obtain ⟨inv4, ha4, hwf4, -, -, -⟩ := groupAppendHost_spec h3wf hg1 hg2 hw host
        rw [hredB uhs uvs ucs hu2, ha4]
        exact hwf4

theorem add_child_group_wf {inv : Obj} {p c : String} (h : WF inv)
    (hp1 : p ≠ "all") (hp2 : p ≠ "_meta") (hc1 : c ≠ "all") (hc2 : c ≠ "_meta") (gv : Obj) :
    ∃ inv', add_child_group p c gv inv = Res.ok inv' ∧ WF inv' := by
  obtain ⟨inv1, he1, hwf1, hmeta1, hall1, hrec1, hframe1, hkeys1⟩ := ensureGroup_spec h hp1 hp2
  obtain ⟨inv2, he2, hwf2, hmeta2, hall2, hrec2, hframe2, hkeys2⟩ := add_group_spec gv hwf1 hc1 hc2
  have hpres2 : (dGet inv2 p).isSome = true := by
    rw [hkeys2 p]
    exact Or.inl (by rw [hrec1]; rfl)
  obtain ⟨w, hw⟩ := Option.isSome_iff_exists.mp hpres2
  obtain ⟨a, b, cc, hsh, hnd1, hnd2, hok⟩ := hwf2.groups_ok p w hw hp2 hp1
  subst hsh
  have hred : add_child_group p c gv inv =
      Res.ok (dSet inv2 p (groupRec a b (appendIfAbsent (Json.str c) cc))) := by
    simp only [add_child_group, he1, he2]
    simp [hw, groupRec, dGet, dSet, appendIfAbsent]
  refine ⟨_, hred, ?_⟩
  refine WF_setGroupRec hwf2 hp1 hp2 hpres2 hnd1 (nodup_appendIfAbsent hnd2) ?_
  intro x hx
  rcases mem_appendIfAbsent.mp hx with hx | hx
  · exact hok x hx
  · refine ⟨c, hx, hc2, hc1, ?_⟩
    rw [hkeys2 c]
    exact Or.inr rfl

theorem foldl_add_host_wf {go : Option String} (hok : okName go) (vars : Obj)
    (hosts : List String) :
    ∀ r : Res, WF (resState r) →
      WF (resState (hosts.foldl
        (fun r h => match r with | .err i => .err i | .ok i => add_host h go vars [] i) r)) := by
  induction hosts with
  | nil =>
      intro r hr
      exact hr
  | cons hd tl ih =>
      intro r hr
      rw [List.foldl_cons]
      cases r with
      | err i => exact ih (Res.err i) hr
      | ok i => exact ih _ (add_host_resWF hr hok hd vars [])

theorem add_hosts_resWF {inv : Obj} {go : Option String} (h : WF inv) (hok : okName go)
    (hosts : List String) (vars gv : Obj) :
    WF (resState (add_hosts hosts go vars gv inv)) := by
  cases go with
  | none =>
      rw [add_hosts.eq_def]
      exact foldl_add_host_wf hok vars hosts (Res.ok inv) h
  | some g =>
      rw [add_hosts.eq_def]
      by_cases hg : g = ""
      · simp only [if_pos hg]
        exact foldl_add_host_wf hok vars hosts (Res.ok inv) h
      · simp only [if_neg hg]
        obtain ⟨inv1, he1, hwf1, -, -, -, -, -⟩ := add_group_spec gv h hok.1 hok.2
        rw [he1]
        exact foldl_add_host_wf hok vars hosts (Res.ok inv1) hwf1

theorem isSome_omap (f : Json → Json) (o : Option Json) : (o.map f).isSome = o.isSome := by
  cases o <;> rfl

theorem omap_eq_some {f : Json → Json} {o : Option Json} {v : Json} (h : o.map f = some v) :
    ∃ w, o = some w ∧ v = f w := by
  cases o with
  | none => cases h
  | some w => exact ⟨w, rfl, (Option.some.inj h).symm⟩

theorem stripChild_allShape_rem (g : String) (cs : List Json) :
    stripChild g (allShape cs) = allShape (listRemoveFirst (Json.str g) cs) := by
  by_cases hm : jmem (Json.str g) cs
  · simp [stripChild, allShape, dGet, dSet, hm]
  · have : Json.str g ∉ cs := fun hx => hm (jmem_iff.mpr hx)
    simp [stripChild, allShape, dGet, hm, listRemoveFirst_of_not_mem this]

theorem remove_group_spec {inv : Obj} {g : String} (h : WF inv)
    (hg1 : g ≠ "all") (hg2 : g ≠ "_meta") :
    ∃ inv', remove_group g inv = Res.ok inv' ∧ WF inv' ∧
      dGet inv' g = none ∧
      dGet inv' "all" = some (allShape (listRemoveFirst (Json.str g) (allChildren inv))) ∧
      hostvarsOf inv' = hostvarsOf inv ∧
      (∀ k, k ≠ g → dGet inv' k = (dGet inv k).map (stripChild g)) ∧
      (∀ k, k ≠ g → (dGet inv' k).isSome = (dGet inv k).isSome) := by
  obtain ⟨cs, hall, hcsnd, hcsok, hcsrev⟩ := h.all_ok
  have hAC : allChildren inv = cs := allChildren_eq_of_dGet hall
  -- state after `del self.inventory[group]`
  obtain ⟨inv1, hinv1def, hinv1g, hinv1ne, hinv1nd⟩ :
      ∃ inv1, (if dHasKey inv g then dDel inv g else inv) = inv1 ∧ dGet inv1 g = none ∧
        (∀ k, k ≠ g → dGet inv1 k = dGet inv k) ∧ (inv1.map Prod.fst).Nodup := by
    by_cases hk : dHasKey inv g
    · exact ⟨dDel inv g, by simp [hk], dGet_dDel_self h.keys_nodup,
        fun k hkk => dGet_dDel_ne inv hkk, ((dDel_sublist inv g).map Prod.fst).nodup h.keys_nodup⟩
    · refine ⟨inv, by simp [hk], ?_, fun k _ => rfl, h.keys_nodup⟩
      cases hq : dGet inv g with
      | none => rfl
      | some v =>
          exact absurd (by simp [dHasKey, hq]) hk
  have hall1 : dGet inv1 "all" = some (allShape cs) := by
    rw [hinv1ne "all" (Ne.symm hg1)]
    exact hall
  -- state after the removal from all.children
  obtain ⟨inv2, hinv2def, hall2, hinv2ne, hinv2nd⟩ :
      ∃ inv2, (if jmem (Json.str g) cs then
          dSet inv1 "all" (Json.obj [("children", Json.arr (listRemoveFirst (Json.str g) cs))])
        else inv1) = inv2 ∧
        dGet inv2 "all" = some (allShape (listRemoveFirst (Json.str g) cs)) ∧
        (∀ k, k ≠ "all" → dGet inv2 k = dGet inv1 k) ∧ (inv2.map Prod.fst).Nodup := by
    by_cases hj : jmem (Json.str g) cs
    · refine ⟨dSet inv1 "all" (Json.obj [("children", Json.arr (listRemoveFirst (Json.str g) cs))]),
        by simp [hj], ?_, fun k hk => dGet_dSet_ne _ _ hk, nodup_keys_dSet _ hinv1nd⟩
      rw [dGet_dSet_self]
      rfl
    · have hnm : Json.str g ∉ cs := fun hx => hj (jmem_iff.mpr hx)
      refine ⟨inv1, by simp [hj], ?_, fun k _ => rfl, hinv1nd⟩
      rw [listRemoveFirst_of_not_mem hnm]
      exact hall1
  have hred : remove_group g inv = Res.ok (inv2.map fun kv => (kv.1, stripChild g kv.2)) := by
    simp only [remove_group]
    rw [hinv1def, hall1]
    simp only [allShape]
    have hga : dGet [("children", Json.arr cs)] "children" = some (Json.arr cs) := by
      simp [dGet]
    have hsa : dSet [("children", Json.arr cs)] "children" (Json.arr (listRemoveFirst (Json.str g) cs)) =
        [("children", Json.arr (listRemoveFirst (Json.str g) cs))] := by
      simp [dSet]
    simp only [hga, hsa]
    rw [hinv2def]
  have hmap : ∀ k, dGet (inv2.map fun kv => (kv.1, stripChild g kv.2)) k
      = (dGet inv2 k).map (stripChild g) :=
    fun k => dGet_map_keyed (fun _ v => stripChild g v) inv2 k
  have hgnone : dGet (inv2.map fun kv => (kv.1, stripChild g kv.2)) g = none := by
    rw [hmap g, hinv2ne g hg1, hinv1g]
    rfl
  have hnotmem_rem : Json.str g ∉ listRemoveFirst (Json.str g) cs := not_mem_listRemoveFirst hcsnd
  have hrk : ∀ k, k ≠ g →
      dGet (inv2.map fun kv => (kv.1, stripChild g kv.2)) k = (dGet inv k).map (stripChild g) := by
    intro k hk
    rw [hmap k]
    by_cases hka : k = "all"
    · subst hka
      rw [hall2, hall]
      simp only [Option.map_some']
      rw [stripChild_allShape hnotmem_rem, stripChild_allShape_rem]
    · rw [hinv2ne k hka, hinv1ne k hk]
  have hkeysr : ∀ k, k ≠ g →
      (dGet (inv2.map fun kv => (kv.1, stripChild g kv.2)) k).isSome = (dGet inv k).isSome := by
    intro k hk
    rw [hrk k hk, isSome_omap]
  have hallr : dGet (inv2.map fun kv => (kv.1, stripChild g kv.2)) "all"
      = some (allShape (listRemoveFirst (Json.str g) (allChildren inv))) := by
    rw [hmap "all", hall2]
    simp only [Option.map_some']
    rw [stripChild_allShape hnotmem_rem, hAC]
  obtain ⟨hv, hm, hmnd, hmo⟩ := h.meta_ok
  have hmetar : dGet (inv2.map fun kv => (kv.1, stripChild g kv.2)) "_meta"
      = some (metaShape hv) := by
    rw [hrk "_meta" (Ne.symm hg2), hm]
    simp only [Option.map_some']
    rw [stripChild_metaShape]
  refine ⟨inv2.map fun kv => (kv.1, stripChild g kv.2), hred, ?_, hgnone, hallr, ?_, hrk, hkeysr⟩
  · -- well-formedness of the result
    refine ⟨?_, ⟨hv, hmetar, hmnd, hmo⟩, ?_, ?_⟩
    · have : (inv2.map fun kv => (kv.1, stripChild g kv.2)).map Prod.fst = inv2.map Prod.fst :=
        keys_map_keyed (fun _ v => stripChild g v) inv2
      rw [this]
      exact hinv2nd
    · refine ⟨listRemoveFirst (Json.str g) cs, hallr.trans (by rw [hAC]), ?_, ?_, ?_⟩
      · exact nodup_listRemoveFirst hcsnd
      · intro x hx
        obtain ⟨s, rfl, h1, h2, h3⟩ := hcsok x (mem_listRemoveFirst hx)
        have hsg : s ≠ g := by
          intro hq
          subst hq
          exact hnotmem_rem hx
        refine ⟨s, rfl, h1, h2, ?_⟩
        rw [hkeysr s hsg]
        exact h3
      · intro k hk h1 h2
        have hkg : k ≠ g := by
          intro hq
          subst hq
          rw [hgnone] at hk
          cases hk
        rw [hkeysr k hkg] at hk
        have := hcsrev k hk h1 h2
        exact mem_listRemoveFirst_of_mem this (fun hq => hkg (Json.str.inj hq))
    · intro k v hkv h1 h2
      have hkg : k ≠ g := by
        intro hq
        subst hq
        rw [hgnone] at hkv
        cases hkv
      rw [hrk k hkg] at hkv
      obtain ⟨w, hw, rfl⟩ := omap_eq_some hkv
      obtain ⟨hsk, vsk, csk, hsh, hnd1, hnd2, hok⟩ := h.groups_ok k w hw h1 h2
      subst hsh
      rw [stripChild_groupRec]
      refine ⟨hsk, vsk, listRemoveFirst (Json.str g) csk, rfl, hnd1,
        nodup_listRemoveFirst hnd2, ?_⟩
      intro x hx
      obtain ⟨s, rfl, hh1, hh2, hh3⟩ := hok x (mem_listRemoveFirst hx)
      have hsg : s ≠ g := by
        intro hq
        subst hq
        exact (not_mem_listRemoveFirst hnd2) hx
      refine ⟨s, rfl, hh1, hh2, ?_⟩
      rw [hkeysr s hsg]
      exact hh3
  · exact hostvarsOf_eq_of_meta (hmetar.trans hm.symm)

theorem dDel_of_dGet_none {d : Obj} {k : String} (h : dGet d k = none) : dDel d k = d := by
  induction d with
  | nil => rfl
  | cons kv rest ih =>
      by_cases h1 : kv.1 = k
      · simp [dGet, h1] at h
      · simp only [dGet, if_neg h1] at h
        simp [dDel, h1, ih h]

theorem recHosts_metaShape (hv : Obj) : recHosts (metaShape hv) = [] := by
  simp [recHosts, metaShape, dGet]

theorem recHosts_allShape (cs : List Json) : recHosts (allShape cs) = [] := by
  simp [recHosts, allShape, dGet]

theorem recChildren_metaShape (hv : Obj) : recChildren (metaShape hv) = [] := by
  simp [recChildren, metaShape, dGet]

theorem recChildren_allShape (cs : List Json) : recChildren (allShape cs) = cs := by
  simp [recChildren, allShape, dGet]

theorem remove_host_spec {inv : Obj} (h : WF inv) (host : String) :
    ∃ inv', remove_host host inv = Res.ok inv' ∧ WF inv' ∧
      hostvarsOf inv' = dDel (hostvarsOf inv) host ∧
      dGet (hostvarsOf inv') host = none ∧
      get_host host inv' = some none ∧
      (∀ k, Json.str host ∉ hostsOf k inv') ∧
      (∀ k, k ≠ "_meta" → dGet inv' k = (dGet inv k).map (stripHost host)) ∧
      (∀ k, (dGet inv' k).isSome = (dGet inv k).isSome) := by
  obtain ⟨hv, hm, hmnd, hmo⟩ := h.meta_ok
  have hhveq : hostvarsOf inv = hv := by simp [hostvarsOf, hm, metaShape, dGet]
  -- state after `del self.inventory['_meta']['hostvars'][host]`
  obtain ⟨inv1, hinv1def, hmeta1, hframe1, hwf1, hkeys1⟩ :
      ∃ inv1, (if dHasKey hv host then
          dSet inv "_meta" (Json.obj [("hostvars", Json.obj (dDel hv host))])
        else inv) = inv1 ∧
        dGet inv1 "_meta" = some (metaShape (dDel hv host)) ∧
        (∀ k, k ≠ "_meta" → dGet inv1 k = dGet inv k) ∧ WF inv1 ∧
        (∀ k, (dGet inv1 k).isSome = (dGet inv k).isSome) := by
    have hdnd : ((dDel hv host).map Prod.fst).Nodup := ((dDel_sublist hv host).map Prod.fst).nodup hmnd
    have hdo : ∀ p ∈ dDel hv host, ∃ o, p.2 = Json.obj o :=
      fun p hp => hmo p ((dDel_sublist hv host).mem hp)
    by_cases hk : dHasKey hv host
    · refine ⟨_, by simp [hk, metaShape], ?_, ?_, WF_setHostvars h hdnd hdo, ?_⟩
      · rw [dGet_dSet_self]
      · exact fun k hkk => dGet_dSet_ne inv _ hkk
      · intro k
        by_cases hkk : k = "_meta"
        · subst hkk
          rw [dGet_dSet_self, hm]
          rfl
        · rw [dGet_dSet_ne inv _ hkk]
    · have hnone : dGet hv host = none := by
        cases hq : dGet hv host with
        | none => rfl
        | some v => exact absurd (by simp [dHasKey, hq]) hk
      refine ⟨inv, by simp [hk], ?_, fun k _ => rfl, h, fun k => rfl⟩
      rw [hm, dDel_of_dGet_none hnone]
  have hred : remove_host host inv =
      Res.ok (inv1.map fun kv => (kv.1, if kv.1 = "_meta" then kv.2 else stripHost host kv.2)) := by
    simp only [remove_host, hm, metaShape]
    have h1 : dGet [("hostvars", Json.obj hv)] "hostvars" = some (Json.obj hv) := by
      simp [dGet]
    have h2 : dSet [("hostvars", Json.obj hv)] "hostvars" (Json.obj (dDel hv host)) =
        [("hostvars", Json.obj (dDel hv host))] := by
      simp [dSet]
    simp only [h1, h2]
    rw [hinv1def]
  have hmapr : ∀ k, dGet (inv1.map fun kv => (kv.1, if kv.1 = "_meta" then kv.2 else stripHost host kv.2)) k
      = (dGet inv1 k).map (fun v => if k = "_meta" then v else stripHost host v) :=
    fun k => dGet_map_keyed (fun k v => if k = "_meta" then v else stripHost host v) inv1 k
  have hmetar : dGet (inv1.map fun kv => (kv.1, if kv.1 = "_meta" then kv.2 else stripHost host kv.2)) "_meta"
      = some (metaShape (dDel hv host)) := by
    rw [hmapr "_meta", hmeta1]
    simp
  have hframer : ∀ k, k ≠ "_meta" →
      dGet (inv1.map fun kv => (kv.1, if kv.1 = "_meta" then kv.2 else stripHost host kv.2)) k
        = (dGet inv k).map (stripHost host) := by
    intro k hk
    rw [hmapr k, hframe1 k hk]
    cases dGet inv k with
    | none => rfl
    | some w => simp [hk]
  have hkeysr : ∀ k,
      (dGet (inv1.map fun kv => (kv.1, if kv.1 = "_meta" then kv.2 else stripHost host kv.2)) k).isSome
        = (dGet inv k).isSome := by
    intro k
    by_cases hk : k = "_meta"
    · subst hk
      rw [hmetar, hm]
      rfl
    · rw [hframer k hk, isSome_omap]
  have hhvr : hostvarsOf (inv1.map fun kv => (kv.1, if kv.1 = "_meta" then kv.2 else stripHost host kv.2))
      = dDel hv host := by
    simp [hostvarsOf, hmetar, metaShape, dGet]
  refine ⟨_, hred, ?_, ?_, ?_, ?_, ?_, hframer, hkeysr⟩
  · -- well-formedness of the result
    refine ⟨?_, ⟨dDel hv host, hmetar, ((dDel_sublist hv host).map Prod.fst).nodup hmnd,
      fun p hp => hmo p ((dDel_sublist hv host).mem hp)⟩, ?_, ?_⟩
    · have : ((inv1.map fun kv => (kv.1, if kv.1 = "_meta" then kv.2 else stripHost host kv.2)).map Prod.fst)
          = inv1.map Prod.fst :=
        keys_map_keyed (fun k v => if k = "_meta" then v else stripHost host v) inv1
      rw [this]
      exact hwf1.keys_nodup
    · obtain ⟨cs, hall, hcsnd, hcsok, hcsrev⟩ := h.all_ok
      refine ⟨cs, ?_, hcsnd, ?_, ?_⟩
      · rw [hframer "all" (by decide), hall]
        simp only [Option.map_some']
        rw [stripHost_allShape]
      · intro x hx
        obtain ⟨s, rfl, h1, h2, h3⟩ := hcsok x hx
        refine ⟨s, rfl, h1, h2, ?_⟩
        rw [hkeysr s]
        exact h3
      · intro k hk h1 h2
        rw [hkeysr k] at hk
        exact hcsrev k hk h1 h2
    · intro k v hkv h1 h2
      rw [hframer k h1] at hkv
      obtain ⟨w, hw, rfl⟩ := omap_eq_some hkv
      obtain ⟨hsk, vsk, csk, hsh, hnd1, hnd2, hok⟩ := h.groups_ok k w hw h1 h2
      subst hsh
      rw [stripHost_groupRec]
      refine ⟨listRemoveFirst (Json.str host) hsk, vsk, csk, rfl,
        nodup_listRemoveFirst hnd1, hnd2, ?_⟩
      intro x hx
      obtain ⟨s, rfl, hh1, hh2, hh3⟩ := hok x hx
      refine ⟨s, rfl, hh1, hh2, ?_⟩
      rw [hkeysr s]
      exact hh3
  · rw [hhvr, hhveq]
  · rw [hhvr]
    exact dGet_dDel_self hmnd
  · simp [get_host, hmetar, metaShape, dGet, dGet_dDel_self hmnd]
  · intro k
    by_cases hk : k = "_meta"
    · subst hk
      simp [hostsOf, hmetar, recHosts_metaShape]
    · rw [hostsOf.eq_def]
      rw [hframer k hk]
      cases hq : dGet inv k with
      | none => simp
      | some w =>
          simp only [Option.map_some']
          by_cases hka : k = "all"
          · subst hka
            obtain ⟨cs, hall, -, -, -⟩ := h.all_ok
            rw [hall] at hq
            injection hq with hq
            subst hq
            rw [stripHost_allShape, recHosts_allShape]
            simp
          · obtain ⟨hsk, vsk, csk, hsh, hnd1, -, -⟩ := h.groups_ok k w hq hk hka
            subst hsh
            rw [stripHost_groupRec, recHosts_groupRec]
            exact not_mem_listRemoveFirst hnd1

theorem applyOp_resWF {inv : Obj} {op : Op} (h : WF inv) (hok : opArgsOK op) :
    WF (resState (applyOp op inv)) := by
  cases op with
  | addGroup g gv =>
      obtain ⟨inv', ha, hwf, -, -, -, -, -⟩ := add_group_spec gv h hok.1 hok.2
      simp only [applyOp]
      rw [ha]
      exact hwf
  | addHost host go vars gv => exact add_host_resWF h hok host vars gv
  | addHosts hosts go vars gv => exact add_hosts_resWF h hok hosts vars gv
  | addHostToGroup host go vars gv => exact add_host_to_group_resWF h hok host vars gv
  | addChildGroup p c gv =>
      obtain ⟨inv', ha, hwf⟩ := add_child_group_wf h hok.1.1 hok.1.2 hok.2.1 hok.2.2 gv
      simp only [applyOp]
      rw [ha]
      exact hwf
  | addGroupVars g gv =>
      obtain ⟨inv', ha, hwf, -, -, -, -, -⟩ := add_group_vars_spec gv h hok.1 hok.2
      simp only [applyOp]
      rw [ha]
      exact hwf
  | removeGroup g =>
      obtain ⟨inv', ha, hwf, -, -, -, -, -⟩ := remove_group_spec h hok.1 hok.2
      simp only [applyOp]
      rw [ha]
      exact hwf
  | removeHost host =>
      obtain ⟨inv', ha, hwf, -, -, -, -, -, -⟩ := remove_host_spec h host
      simp only [applyOp]
      rw [ha]
      exact hwf

theorem runOps_err_absorb (ops : List Op) (i : Obj) :
    ops.foldl (fun r op => match r with | .err i => .err i | .ok i => applyOp op i)
      (Res.err i) = Res.err i := by
  induction ops with
  | nil => rfl
  | cons op tl ih => simpa [List.foldl_cons] using ih

theorem runOps_cons (op : Op) (tl : List Op) (inv : Obj) :
    runOps (op :: tl) inv =
      (match applyOp op inv with
       | Res.ok i => runOps tl i
       | Res.err i => Res.err i) := by
  simp only [runOps, List.foldl_cons]
  cases applyOp op inv with
  | ok i => rfl
  | err i => exact runOps_err_absorb tl i

theorem runOps_resWF (ops : List Op) {inv : Obj} (h : WF inv) (hok : opsArgsOK ops) :
    WF (resState (runOps ops inv)) := by
  induction ops generalizing inv with
  | nil => exact h
  | cons op tl ih =>
      rw [runOps_cons]
      have hop : opArgsOK op := hok op (List.mem_cons_self op tl)
      have htl : opsArgsOK tl := fun o ho => hok o (List.mem_cons_of_mem op ho)
      cases hq : applyOp op inv with
      | ok i =>
          have := applyOp_resWF h hop
          rw [hq] at this
          exact ih this htl
      | err i =>
          have := applyOp_resWF h hop
          rw [hq] at this
          exact this

theorem dGet_of_mem_nodup {d : Obj} (hnd : (d.map Prod.fst).Nodup) {p : String × Json}
    (hp : p ∈ d) : dGet d p.1 = some p.2 := by
  induction d with
  | nil => cases hp
  | cons kv rest ih =>
      simp only [List.map_cons, List.nodup_cons] at hnd
      rcases List.mem_cons.mp hp with rfl | hp
      · simp [dGet]
      · have hne : kv.1 ≠ p.1 := by
          intro hq
          exact hnd.1 (hq ▸ List.mem_map.mpr ⟨p, hp, rfl⟩)
        simp [dGet, hne, ih hnd.2 hp]

theorem WF_groupsRegistered {inv : Obj} (h : WF inv) : groupsRegistered inv := by
  intro g hg
  obtain ⟨cs, hall, hcsnd, hcsok, hcsrev⟩ := h.all_ok
  have hAC : allChildren inv = cs := allChildren_eq_of_dGet hall
  obtain ⟨hv, hm, -, -⟩ := h.meta_ok
  have hmain : g ≠ "_meta" ∧ g ≠ "all" ∧ (dGet inv g).isSome = true := by
    rcases hg with ⟨kv, hkv, hgc⟩ | ⟨h1, h2, h3⟩
    · have hget : dGet inv kv.1 = some kv.2 := dGet_of_mem_nodup h.keys_nodup hkv
      by_cases hk1 : kv.1 = "_meta"
      · rw [hk1, hm] at hget
        injection hget with hget
        rw [← hget, recChildren_metaShape] at hgc
        cases hgc
      · by_cases hk2 : kv.1 = "all"
        · rw [hk2, hall] at hget
          injection hget with hget
          rw [← hget, recChildren_allShape] at hgc
          obtain ⟨s, hseq, hs1, hs2, hs3⟩ := hcsok _ hgc
          obtain rfl : g = s := Json.str.inj hseq
          exact ⟨hs1, hs2, hs3⟩
        · obtain ⟨hs, vs, csk, hsh, -, -, hok⟩ := h.groups_ok kv.1 kv.2 hget hk1 hk2
          rw [hsh, recChildren_groupRec] at hgc
          obtain ⟨s, hseq, hs1, hs2, hs3⟩ := hok _ hgc
          obtain rfl : g = s := Json.str.inj hseq
          exact ⟨hs1, hs2, hs3⟩
    · exact ⟨h3, h2, h1⟩
  obtain ⟨h1, h2, h3⟩ := hmain
  refine ⟨by rw [hAC]; exact hcsrev g h3 h1 h2, ?_⟩
  obtain ⟨w, hw⟩ := Option.isSome_iff_exists.mp h3
  obtain ⟨hs, vs, cs', hsh, -, -, -⟩ := h.groups_ok g w hw h1 h2
  exact ⟨hs, vs, cs', by rw [hw, hsh]⟩

theorem hostsOf_nodup {inv : Obj} (h : WF inv) (g : String) : (hostsOf g inv).Nodup := by
  cases hq : dGet inv g with
  | none => simp [hostsOf, hq]
  | some v =>
      by_cases h1 : g = "_meta"
      · subst h1
        obtain ⟨hv, hm, -, -⟩ := h.meta_ok
        rw [hm] at hq
        injection hq with hq
        simp [hostsOf, hm, ← hq, recHosts_metaShape]
      · by_cases h2 : g = "all"
        · subst h2
          obtain ⟨cs, hall, -, -, -⟩ := h.all_ok
          rw [hall] at hq
          injection hq with hq
          simp [hostsOf, hall, ← hq, recHosts_allShape]
        · obtain ⟨hs, vs, cs, hsh, hnd, -, -⟩ := h.groups_ok g v hq h1 h2
          subst hsh
          simp [hostsOf, hq, recHosts_groupRec, hnd]

theorem dGet_get_groups {g : String} (hg : g ≠ "_meta") (inv : Obj) :
    dGet (get_groups inv) g = dGet inv g := by
  have hgm : ("_meta" : String) ≠ g := fun hq => hg hq.symm
  induction inv with
  | nil => rfl
  | cons kv rest ih =>
      simp only [get_groups, ne_eq, decide_not] at ih
      by_cases h1 : kv.1 = "_meta"
      · simp [get_groups, List.filter_cons, h1, hgm, dGet, ih]
      · by_cases h2 : kv.1 = g
        · simp [get_groups, List.filter_cons, h1, h2, hg, dGet]
        · simp [get_groups, List.filter_cons, h1, h2, dGet, ih]

/-- C2 (amended): for every host `h` and every group name `g` that is
non-empty and not one of the reserved records `all`/`_meta`, after
`add_host(host=h, group=g)` on any well-formed store the host occurs
exactly once in the list returned by `get_hosts_in_group(g)`, and a second
identical call leaves it occurring exactly once. -/
theorem claim_C2 (inv : Obj) (h : WF inv) (host g : String)
    (hg0 : g ≠ "") (hg1 : g ≠ "all") (hg2 : g ≠ "_meta") (vars gv : Obj) :
    ∃ s l, add_host host (some g) vars gv inv = Res.ok s ∧
      get_hosts_in_group g s = some (Json.arr l) ∧ List.count (Json.str host) l = 1 ∧
      ∃ s2 l2, add_host host (some g) vars gv s = Res.ok s2 ∧
        get_hosts_in_group g s2 = some (Json.arr l2) ∧ List.count (Json.str host) l2 = 1 := by
  obtain ⟨s, ha, hwf, hrec, -, -, -, -⟩ := add_host_group_spec h hg0 hg1 hg2 host vars gv
  have hnd : (appendIfAbsent (Json.str host) (hostsOf g inv)).Nodup :=
    nodup_appendIfAbsent (hostsOf_nodup h g)
  have hcount : List.count (Json.str host) (appendIfAbsent (Json.str host) (hostsOf g inv)) = 1 :=
    List.count_eq_one_of_mem hnd self_mem_appendIfAbsent
  obtain ⟨s2, ha2, hwf2, hrec2, -, -, -, -⟩ := add_host_group_spec hwf hg0 hg1 hg2 host vars gv
  rw [hostsOf_eq_of_dGet hrec, varsOf_eq_of_dGet hrec, childrenOf_eq_of_dGet hrec,
    appendIfAbsent_idem] at hrec2
  refine ⟨s, appendIfAbsent (Json.str host) (hostsOf g inv), ha,
    get_hosts_in_group_of_dGet hrec, hcount,
    s2, appendIfAbsent (Json.str host) (hostsOf g inv), ha2,
    get_hosts_in_group_of_dGet hrec2, hcount⟩

/-- C2 counterexample: with the empty string as the group name (a
non-reserved string), `add_host` treats the group as absent (Python
truthiness), the host lands in `ungrouped`, and `get_hosts_in_group("")`
returns the empty list, so the host does not occur exactly once. -/
theorem claim_C2_counterexample :
    resIsErr (add_host "h1" (some "") [] [] freshInventory) = false ∧
    get_hosts_in_group "" (resState (add_host "h1" (some "") [] [] freshInventory))
      = some (Json.arr []) ∧
    List.count (Json.str "h1") ([] : List Json) = 0 := by
  refine ⟨by decide, by decide, by decide⟩

/-- C2 witness. -/
theorem claim_C2_witness :
    ∃ s l, add_host "h1" (some "web") [] [] freshInventory = Res.ok s ∧
      get_hosts_in_group "web" s = some (Json.arr l) ∧ List.count (Json.str "h1") l = 1 ∧
      ∃ s2 l2, add_host "h1" (some "web") [] [] s = Res.ok s2 ∧
        get_hosts_in_group "web" s2 = some (Json.arr l2) ∧ List.count (Json.str "h1") l2 = 1 :=
  claim_C2 freshInventory WF_fresh "h1" "web" (by decide) (by decide) (by decide) [] []

/-- C3 (amended): for every host and every group name `G` outside the
reserved set (`all`, `_meta`, `ungrouped`) and non-empty,
`add_host(h, None)` followed by `add_host_to_group(h, G)` leaves `h` in
`G.hosts` and removes it from `ungrouped.hosts`, while `add_host(h, None)`
followed by `add_host(h, G)` leaves `h` in both. -/
theorem claim_C3 (inv : Obj) (h : WF inv) (host G : String)
    (hG0 : G ≠ "") (hG1 : G ≠ "all") (hG2 : G ≠ "_meta") (hG3 : G ≠ "ungrouped")
    {uhs : List Json} {uvs : Obj} {ucs : List Json}
    (hu : dGet inv "ungrouped" = some (groupRec uhs uvs ucs)) :
    (∃ s1 s2, add_host host none [] [] inv = Res.ok s1 ∧
      add_host_to_group host (some G) [] [] s1 = Res.ok s2 ∧
      Json.str host ∈ hostsOf G s2 ∧ Json.str host ∉ hostsOf "ungrouped" s2) ∧
    (∃ s1 s2, add_host host none [] [] inv = Res.ok s1 ∧
      add_host host (some G) [] [] s1 = Res.ok s2 ∧
      Json.str host ∈ hostsOf G s2 ∧ Json.str host ∈ hostsOf "ungrouped" s2) := by
  obtain ⟨a, b, c, hsh, hund, -, -⟩ := h.groups_ok "ungrouped" _ hu (by decide) (by decide)
  obtain ⟨haa, hbb, hcc⟩ := groupRec_inj hsh
  subst haa; subst hbb; subst hcc
  obtain ⟨s1, ha1, hwf1, hrecu1, -, -, -⟩ :=
    add_host_ungrouped_spec h (Or.inl rfl) hu host [] []
  constructor
  · obtain ⟨s2, ha2, hwf2, hrecg2, hrecu2, -, -, -, -⟩ :=
      add_host_to_group_named_spec hwf1 hG0 hG1 hG2 hG3 hrecu1 host [] []
    refine ⟨s1, s2, ha1, ha2, ?_, ?_⟩
    · rw [hostsOf_eq_of_dGet hrecg2]
      exact self_mem_appendIfAbsent
    · rw [hostsOf_eq_of_dGet hrecu2]
      exact not_mem_listRemoveFirst (nodup_appendIfAbsent hund)
  · obtain ⟨s2, ha2, hwf2, hrecg2, -, -, hframe2, -⟩ :=
      add_host_group_spec hwf1 hG0 hG1 hG2 host [] []
    refine ⟨s1, s2, ha1, ha2, ?_, ?_⟩
    · rw [hostsOf_eq_of_dGet hrecg2]
      exact self_mem_appendIfAbsent
    · have : dGet s2 "ungrouped" = dGet s1 "ungrouped" :=
        hframe2 "ungrouped" (by decide) (by decide) (Ne.symm hG3)
      rw [hostsOf_congr this, hostsOf_eq_of_dGet hrecu1]
      exact self_mem_appendIfAbsent

/-- C3 counterexample: the empty string is a non-reserved group name, but
`add_host_to_group(h, "")` is falsy in Python, so the host stays in
`ungrouped` and no group `""` membership is created — the claimed move does
not happen. -/
theorem claim_C3_counterexample :
    resIsErr (add_host "h1" none [] [] freshInventory) = false ∧
    resIsErr (add_host_to_group "h1" (some "") [] []
      (resState (add_host "h1" none [] [] freshInventory))) = false ∧
    Json.str "h1" ∉ hostsOf ""
      (resState (add_host_to_group "h1" (some "") [] []
        (resState (add_host "h1" none [] [] freshInventory)))) ∧
    Json.str "h1" ∈ hostsOf "ungrouped"
      (resState (add_host_to_group "h1" (some "") [] []
        (resState (add_host "h1" none [] [] freshInventory)))) := by
  refine ⟨by decide, by decide, by decide, by decide⟩

/-- C3 witness. -/
theorem claim_C3_witness :
    (∃ s1 s2, add_host "h1" none [] [] freshInventory = Res.ok s1 ∧
      add_host_to_group "h1" (some "web") [] [] s1 = Res.ok s2 ∧
      Json.str "h1" ∈ hostsOf "web" s2 ∧ Json.str "h1" ∉ hostsOf "ungrouped" s2) ∧
    (∃ s1 s2, add_host "h1" none [] [] freshInventory = Res.ok s1 ∧
      add_host "h1" (some "web") [] [] s1 = Res.ok s2 ∧
      Json.str "h1" ∈ hostsOf "web" s2 ∧ Json.str "h1" ∈ hostsOf "ungrouped" s2) :=
  claim_C3 freshInventory WF_fresh "h1" "web" (by decide) (by decide) (by decide) (by decide)
    (show dGet freshInventory "ungrouped" = some (groupRec [] [] []) by decide)

/-- C5: on any well-formed store, `remove_host(h)` succeeds, `get_host(h)`
then returns the absent marker, the `_meta.hostvars` entry is gone, and `h`
is absent from every record's `hosts` list, `ungrouped` included. -/
theorem claim_C5 (inv : Obj) (h : WF inv) (host : String) :
    ∃ s, remove_host host inv = Res.ok s ∧
      get_host host s = some none ∧
      dGet (hostvarsOf s) host = none ∧
      (∀ k, Json.str host ∉ hostsOf k s) := by
  obtain ⟨s, ha, hwf, -, hnone, hget, hmem, -, -⟩ := remove_host_spec h host
  exact ⟨s, ha, hget, hnone, hmem⟩

/-- C5 witness: remove a host that was added to two groups. -/
theorem claim_C5_witness :
    ∃ s, remove_host "h1"
        (resState (runOps [Op.addHost "h1" (some "G1") [] [],
          Op.addHostToGroup "h1" (some "G2") [] []] freshInventory)) = Res.ok s ∧
      get_host "h1" s = some none ∧
      dGet (hostvarsOf s) "h1" = none ∧
      (∀ k, Json.str "h1" ∉ hostsOf k s) :=
  claim_C5 _
    (runOps_resWF [Op.addHost "h1" (some "G1") [] [], Op.addHostToGroup "h1" (some "G2") [] []]
      WF_fresh (by
        intro op hop
        rcases List.mem_cons.mp hop with rfl | hop
        · exact ⟨by decide, by decide⟩
        rcases List.mem_cons.mp hop with rfl | hop
        · exact ⟨by decide, by decide⟩
        cases hop))
    "h1"

/-- C8: on any well-formed store, queries for unknown names return the
absent marker (`None`) or an empty list, never an error: `get_host` and
`get_group` return `None`, `get_child_groups` and `get_hosts_in_group`
return `[]`. -/
theorem claim_C8 (inv : Obj) (h : WF inv) (name : String) :
    (dGet (hostvarsOf inv) name = none → get_host name inv = some none) ∧
    (dGet inv name = none →
      get_group name inv = some none ∧
      get_child_groups name inv = some (Json.arr []) ∧
      get_hosts_in_group name inv = some (Json.arr [])) := by
  constructor
  · intro hn
    obtain ⟨hv, hm, -, -⟩ := h.meta_ok
    have hhv : hostvarsOf inv = hv := by simp [hostvarsOf, hm, metaShape, dGet]
    rw [hhv] at hn
    simp [get_host, hm, metaShape, dGet, hn]
  · intro hn
    exact ⟨by simp [get_group, hn], by simp [get_child_groups, hn],
      by simp [get_hosts_in_group, hn]⟩

/-- C8 witness. -/
theorem claim_C8_witness :
    get_host "nonexistent" freshInventory = some none ∧
    get_group "nonexistent" freshInventory = some none ∧
    get_child_groups "nonexistent" freshInventory = some (Json.arr []) ∧
    get_hosts_in_group "nonexistent" freshInventory = some (Json.arr []) := by
  have h := claim_C8 freshInventory WF_fresh "nonexistent"
  exact ⟨h.1 (by decide), (h.2 (by decide)).1, (h.2 (by decide)).2.1, (h.2 (by decide)).2.2⟩

/-- C9 (amended): for every group name other than the reserved root name
`all`, `add_group(g)` on a fresh store succeeds and `get_child_groups(g)`
then returns the empty list, not the absent marker. -/
theorem claim_C9 (g : String) (hg : g ≠ "all") :
    ∃ s, add_group g [] freshInventory = Res.ok s ∧
      get_child_groups g s = some (Json.arr []) := by
  by_cases h1 : g = "_meta"
  · subst h1
    exact ⟨resState (add_group "_meta" [] freshInventory), by decide, by decide⟩
  · obtain ⟨s, ha, hwf, -, -, hrec, -, -⟩ := add_group_spec [] WF_fresh hg h1
    have hc : childrenOf g freshInventory = [] := by
      by_cases h2 : g = "ungrouped"
      · subst h2
        decide
      · have e1 : ("_meta" : String) ≠ g := fun hq => h1 hq.symm
        have e2 : ("all" : String) ≠ g := fun hq => hg hq.symm
        have e3 : ("ungrouped" : String) ≠ g := fun hq => h2 hq.symm
        rw [childrenOf_eq_of_none]
        simp [freshInventory, dGet, e1, e2, e3]
    rw [hc] at hrec
    exact ⟨s, ha, get_child_groups_of_dGet hrec⟩

/-- C9 counterexample: `add_group('all')` succeeds, but then
`get_child_groups('all')` returns the whole registry (now polluted with
`'all'` itself), not the empty sequence. -/
theorem claim_C9_counterexample :
    resIsErr (add_group "all" [] freshInventory) = false ∧
    get_child_groups "all" (resState (add_group "all" [] freshInventory))
      = some (Json.arr [Json.str "ungrouped", Json.str "all"]) ∧
    some (Json.arr [Json.str "ungrouped", Json.str "all"]) ≠ some (Json.arr ([] : List Json)) := by
  refine ⟨by decide, by decide, by decide⟩

/-- C9 witness. -/
theorem claim_C9_witness :
    ("web" : String) ≠ "all" ∧
    ∃ s, add_group "web" [] freshInventory = Res.ok s ∧
      get_child_groups "web" s = some (Json.arr []) :=
  ⟨by decide, claim_C9 "web" (by decide)⟩

/-- C1 (amended): starting from a fresh store, after any sequence of the
documented mutation operations whose group-name arguments avoid the
reserved records `all` and `_meta`, every group name that appears in the
store — as an entry of any record's `children` list or as a top-level
group record — is an element of `all.children` and has a top-level record
with all three of `hosts`, `vars` and `children`. -/
theorem claim_C1 (ops : List Op) (hok : opsArgsOK ops) :
    groupsRegistered (resState (runOps ops freshInventory)) :=
  WF_groupsRegistered (runOps_resWF ops WF_fresh hok)

/-- C1 counterexample: the single documented call `add_group(group='all')`
registers `'all'` inside `all.children`, yet the `all` record still has no
`hosts` or `vars` field, so the claimed invariant fails as stated. -/
theorem claim_C1_counterexample :
    ¬ groupsRegistered (resState (runOps [Op.addGroup "all" []] freshInventory)) := by
  intro hreg
  have hprem : (∃ kv ∈ resState (runOps [Op.addGroup "all" []] freshInventory),
      Json.str "all" ∈ recChildren kv.2) ∨
      ((dGet (resState (runOps [Op.addGroup "all" []] freshInventory)) "all").isSome = true ∧
        ("all" : String) ≠ "all" ∧ ("all" : String) ≠ "_meta") := by
    left
    exact ⟨("all", Json.obj [("children", Json.arr [Json.str "ungrouped", Json.str "all"])]),
      by decide, by decide⟩
  obtain ⟨hmem, hs, vs, cs, heq⟩ := hreg "all" hprem
  have hval : dGet (resState (runOps [Op.addGroup "all" []] freshInventory)) "all"
      = some (Json.obj [("children", Json.arr [Json.str "ungrouped", Json.str "all"])]) := by
    decide
  rw [hval] at heq
  injection heq with heq
  simp [groupRec] at heq

/-- C1 witness. -/
theorem claim_C1_witness :
    opsArgsOK [Op.addHosts ["h1", "h2"] (some "web") [] [("region", Json.str "east")],
      Op.addChildGroup "prod" "web" [], Op.removeHost "h2", Op.removeGroup "db"] ∧
    groupsRegistered (resState (runOps
      [Op.addHosts ["h1", "h2"] (some "web") [] [("region", Json.str "east")],
        Op.addChildGroup "prod" "web" [], Op.removeHost "h2", Op.removeGroup "db"]
      freshInventory)) := by
  have hok : opsArgsOK [Op.addHosts ["h1", "h2"] (some "web") [] [("region", Json.str "east")],
      Op.addChildGroup "prod" "web" [], Op.removeHost "h2", Op.removeGroup "db"] := by
    intro op hop
    rcases List.mem_cons.mp hop with rfl | hop
    · exact ⟨by decide, by decide⟩
    rcases List.mem_cons.mp hop with rfl | hop
    · exact ⟨⟨by decide, by decide⟩, by decide, by decide⟩
    rcases List.mem_cons.mp hop with rfl | hop
    · exact trivial
    rcases List.mem_cons.mp hop with rfl | hop
    · exact ⟨by decide, by decide⟩
    cases hop
  exact ⟨hok, claim_C1 _ hok⟩

/-- C4 (amended): for every group name other than the reserved `all` and
`_meta` records, `remove_group(G)` on any well-formed store succeeds, and
afterwards `G` is absent from `get_groups()`, from `all.children`, and from
every record's `children` list; hosts that were members only of `G` appear
in no `hosts` list, while `_meta.hostvars` is unchanged. -/
theorem claim_C4 (inv : Obj) (h : WF inv) (G : String)
    (hG1 : G ≠ "all") (hG2 : G ≠ "_meta") :
    ∃ s, remove_group G inv = Res.ok s ∧
      dGet (get_groups s) G = none ∧
      Json.str G ∉ allChildren s ∧
      (∀ k, Json.str G ∉ childrenOf k s) ∧
      hostvarsOf s = hostvarsOf inv ∧
      (∀ hostname : String, (∀ k, k ≠ G → Json.str hostname ∉ hostsOf k inv) →
        ∀ k, Json.str hostname ∉ hostsOf k s) := by
  obtain ⟨s, ha, hwf, hnone, halls, hhv, hmap, hkeys⟩ := remove_group_spec h hG1 hG2
  obtain ⟨cs, hall, hcsnd, -, -⟩ := h.all_ok
  have hAC : allChildren inv = cs := allChildren_eq_of_dGet hall
  obtain ⟨hv, hm, -, -⟩ := h.meta_ok
  refine ⟨s, ha, ?_, ?_, ?_, hhv, ?_⟩
  · rw [dGet_get_groups hG2 s]
    exact hnone
  · rw [allChildren_eq_of_dGet halls, hAC]
    exact not_mem_listRemoveFirst hcsnd
  · intro k
    by_cases hk : k = G
    · subst hk
      simp [childrenOf, hnone]
    · have hthis := hmap k hk
      cases hq : dGet inv k with
      | none =>
          rw [hq] at hthis
          simp [childrenOf, hthis]
      | some w =>
          rw [hq] at hthis
          simp only [Option.map_some'] at hthis
          by_cases hk1 : k = "_meta"
          · subst hk1
            rw [hm] at hq
            injection hq with hq
            subst hq
            simp [childrenOf, hthis, stripChild_metaShape, recChildren_metaShape]
          · by_cases hk2 : k = "all"
            · subst hk2
              rw [hall] at hq
              injection hq with hq
              subst hq
              rw [stripChild_allShape_rem] at hthis
              simp only [childrenOf, hthis, recChildren_allShape]
              exact not_mem_listRemoveFirst hcsnd
            · obtain ⟨hsk, vsk, csk, hsh, -, hnd2, -⟩ := h.groups_ok k w hq hk1 hk2
              subst hsh
              rw [stripChild_groupRec] at hthis
              simp only [childrenOf, hthis, recChildren_groupRec]
              exact not_mem_listRemoveFirst hnd2
  · intro hostname hhost k
    by_cases hk : k = G
    · subst hk
      simp [hostsOf, hnone]
    · have hthis := hmap k hk
      cases hq : dGet inv k with
      | none =>
          rw [hq] at hthis
          simp [hostsOf, hthis]
      | some w =>
          rw [hq] at hthis
          simp only [Option.map_some'] at hthis
          by_cases hk1 : k = "_meta"
          · subst hk1
            rw [hm] at hq
            injection hq with hq
            subst hq
            simp [hostsOf, hthis, stripChild_metaShape, recHosts_metaShape]
          · by_cases hk2 : k = "all"
            · subst hk2
              rw [hall] at hq
              injection hq with hq
              subst hq
              rw [stripChild_allShape_rem] at hthis
              simp [hostsOf, hthis, recHosts_allShape]
            · obtain ⟨hsk, vsk, csk, hsh, -, -, -⟩ := h.groups_ok k w hq hk1 hk2
              subst hsh
              rw [stripChild_groupRec] at hthis
              have hmem := hhost k hk
              rw [hostsOf_eq_of_dGet hq] at hmem
              simp only [hostsOf, hthis, recHosts_groupRec]
              exact hmem

/-- C4 counterexample: with the reserved name `all` as the group —
reachable through the documented call `add_child_group('P', 'all')` —
`remove_group('all')` raises an uncaught `KeyError` midway and leaves
`'all'` inside `P.children`, so the claimed cleanup does not happen. -/
theorem claim_C4_counterexample :
    resIsErr (add_child_group "P" "all" [] freshInventory) = false ∧
    resIsErr (remove_group "all"
      (resState (add_child_group "P" "all" [] freshInventory))) = true ∧
    Json.str "all" ∈ childrenOf "P"
      (resState (remove_group "all"
        (resState (add_child_group "P" "all" [] freshInventory)))) := by
  refine ⟨by decide, by decide, by decide⟩

/-- C4 witness: remove a group that was linked as a child of a parent. -/
theorem claim_C4_witness :
    ∃ s, remove_group "G" (resState (runOps [Op.addChildGroup "P" "G" []] freshInventory))
        = Res.ok s ∧
      dGet (get_groups s) "G" = none ∧
      Json.str "G" ∉ allChildren s ∧
      (∀ k, Json.str "G" ∉ childrenOf k s) ∧
      hostvarsOf s = hostvarsOf (resState (runOps [Op.addChildGroup "P" "G" []] freshInventory)) ∧
      (∀ hostname : String,
        (∀ k, k ≠ "G" → Json.str hostname ∉ hostsOf k
          (resState (runOps [Op.addChildGroup "P" "G" []] freshInventory))) →
        ∀ k, Json.str hostname ∉ hostsOf k s) :=
  claim_C4 _
    (runOps_resWF [Op.addChildGroup "P" "G" []] WF_fresh (by
      intro op hop
      rcases List.mem_cons.mp hop with rfl | hop
      · exact ⟨⟨by decide, by decide⟩, by decide, by decide⟩
      cases hop))
    "G" (by decide) (by decide)

/-- C6: saving any store built by the documented operations and loading the
cache back yields a store with exactly the same structure (in particular
the same hosts, host variables, groups, group variables and children). -/
theorem claim_C6 (ops : List Op) (s : Obj) (_h : runOps ops freshInventory = Res.ok s) :
    load_cache (save_cache s) = Json.obj s := rfl

/-- C6 witness. -/
theorem claim_C6_witness :
    runOps [Op.addHost "h1" (some "g1") [("ip", Json.str "10.0.0.1")] []] freshInventory
      = Res.ok (resState (runOps [Op.addHost "h1" (some "g1") [("ip", Json.str "10.0.0.1")] []]
          freshInventory)) ∧
    load_cache (save_cache (resState (runOps
        [Op.addHost "h1" (some "g1") [("ip", Json.str "10.0.0.1")] []] freshInventory)))
      = Json.obj (resState (runOps [Op.addHost "h1" (some "g1") [("ip", Json.str "10.0.0.1")] []]
          freshInventory)) :=
  ⟨by decide, claim_C6 [Op.addHost "h1" (some "g1") [("ip", Json.str "10.0.0.1")] []] _ (by decide)⟩

/-- C7: `load_cache` returns the fresh store — only `_meta`, `all` with
children `['ungrouped']`, and an empty `ungrouped` record — both when the
cache file is absent and when its contents are not valid JSON; it installs
the parsed data only when the file exists and parses, and no error reaches
the caller in any case (the function is total). -/
theorem claim_C7 :
    load_cache none = Json.obj freshInventory ∧
    load_cache (some FileData.invalid) = Json.obj freshInventory ∧
    (∀ j : Json, load_cache (some (FileData.valid j)) = j) ∧
    freshInventory = [("_meta", Json.obj [("hostvars", Json.obj [])]),
      ("all", Json.obj [("children", Json.arr [Json.str "ungrouped"])]),
      ("ungrouped", Json.obj [("hosts", Json.arr []), ("vars", Json.obj []),
        ("children", Json.arr [])])] :=
  ⟨rfl, rfl, fun _ => rfl, rfl⟩

theorem metaShape_inj {a b : Obj} (h : metaShape a = metaShape b) : a = b := by
  simpa [metaShape] using h

theorem hostvarsOf_of_meta {inv : Obj} {hv : Obj}
    (h : dGet inv "_meta" = some (metaShape hv)) : hostvarsOf inv = hv := by
  unfold hostvarsOf
  rw [h]
  simp [metaShape, dGet]

theorem crashSpec_intro {inv e : Obj} {r : Res} {host : String} {vars : Obj}
    (hr : r = Res.err e)
    (hhv : hostvarsOf e = dSet (hostvarsOf inv) host
      (Json.obj (jUpdate (hvEntryObj host (hostvarsOf inv)) vars)))
    (hmem : ∀ k, Json.str host ∈ hostsOf k e → Json.str host ∈ hostsOf k inv) :
    crashSpec r inv host vars := by
  subst hr
  refine ⟨rfl, ?_, hmem, ?_⟩
  · simp only [resState, hhv, dGet_dSet_self]
  · intro hn heq
    simp only [resState] at heq
    rw [heq] at hhv
    have := congrArg (fun o => dGet o host) hhv
    simp only [dGet_dSet_self] at this
    rw [hn] at this
    cases this

theorem ensureGroup_all {inv : Obj} {cs : List Json}
    (hall : dGet inv "all" = some (allShape cs)) :
    ensureGroup "all" inv
      = Res.ok (dSet inv "all" (allShape (appendIfAbsent (Json.str "all") cs))) := by
  simp only [ensureGroup, hall, allShape]
  have h1 : dGet [("children", Json.arr cs)] "children" = some (Json.arr cs) := by
    simp [dGet]
  have h2 : dSet [("children", Json.arr cs)] "children"
      (Json.arr (appendIfAbsent (Json.str "all") cs))
      = [("children", Json.arr (appendIfAbsent (Json.str "all") cs))] := by
    simp [dSet]
  simp [h1, h2, dHasKey, dGet_dSet_self]

theorem ensureGroup_meta {inv : Obj} {cs : List Json}
    (hall : dGet inv "all" = some (allShape cs)) (hmeta : (dGet inv "_meta").isSome = true) :
    ensureGroup "_meta" inv
      = Res.ok (dSet inv "all" (allShape (appendIfAbsent (Json.str "_meta") cs))) := by
  simp only [ensureGroup, hall, allShape]
  have h1 : dGet [("children", Json.arr cs)] "children" = some (Json.arr cs) := by
    simp [dGet]
  have h2 : dSet [("children", Json.arr cs)] "children"
      (Json.arr (appendIfAbsent (Json.str "_meta") cs))
      = [("children", Json.arr (appendIfAbsent (Json.str "_meta") cs))] := by
    simp [dSet]
  have h3 : dGet (dSet inv "all" (Json.obj [("children",
      Json.arr (appendIfAbsent (Json.str "_meta") cs))])) "_meta" = dGet inv "_meta" :=
    dGet_dSet_ne inv _ (by decide)
  simp [h1, h2, dHasKey, h3, hmeta]

theorem add_host_named_red {inv : Obj} {g : String} (h : WF inv) (hg0 : g ≠ "")
    (host : String) (vars gv : Obj) :
    ∃ hv, dGet inv "_meta" = some (metaShape hv) ∧ hostvarsOf inv = hv ∧
      add_host host (some g) vars gv inv =
        (match add_group g gv (dSet inv "_meta" (metaShape (dSet hv host (Json.obj (jUpdate (hvEntryObj host hv) vars))))) with
         | Res.err i => Res.err i
         | Res.ok inv2 => groupAppendHost host g inv2) := by
  obtain ⟨hv, hm, hupd, hhveq, -, -, -, -⟩ := hostvars_write h host vars
  refine ⟨hv, hm, hhveq, ?_⟩
  simp only [add_host, hm, metaShape]
  have h1 : dGet [("hostvars", Json.obj hv)] "hostvars" = some (Json.obj hv) := by
    simp [dGet]
  have h2 : dSet [("hostvars", Json.obj hv)] "hostvars"
      (Json.obj (dSet hv host (Json.obj (jUpdate (hvEntryObj host hv) vars)))) =
      [("hostvars", Json.obj (dSet hv host (Json.obj (jUpdate (hvEntryObj host hv) vars))))] := by
    simp [dSet]
  simp [h1, hupd, hg0, h2]

theorem add_host_to_group_red0 {inv : Obj} {g : String} (h : WF inv) (hg0 : g ≠ "")
    (host : String) (vars gv : Obj) :
    ∃ hv, dGet inv "_meta" = some (metaShape hv) ∧ hostvarsOf inv = hv ∧
      add_host_to_group host (some g) vars gv inv =
        (match add_group g gv (dSet inv "_meta" (metaShape (dSet hv host (Json.obj (jUpdate (hvEntryObj host hv) vars))))) with
         | Res.err i => Res.err i
         | Res.ok inv2 =>
             match dGet inv2 "ungrouped" with
             | some (Json.obj urec) =>
                 (match dGet urec "hosts" with
                  | some (Json.arr uhs) =>
                      groupAppendHost host g
                        (if jmem (Json.str host) uhs then
                          dSet inv2 "ungrouped" (Json.obj (dSet urec "hosts" (Json.arr (listRemoveFirst (Json.str host) uhs))))
                         else inv2)
                  | some _ => Res.err inv2
                  | none => Res.err inv2)
             | some _ => Res.err inv2
             | none => Res.err inv2) := by
  obtain ⟨hv, hm, hupd, hhveq, -, -, -, -⟩ := hostvars_write h host vars
  refine ⟨hv, hm, hhveq, ?_⟩
  simp only [add_host_to_group, hm, metaShape]
  have h1 : dGet [("hostvars", Json.obj hv)] "hostvars" = some (Json.obj hv) := by
    simp [dGet]
  have h2 : dSet [("hostvars", Json.obj hv)] "hostvars"
      (Json.obj (dSet hv host (Json.obj (jUpdate (hvEntryObj host hv) vars)))) =
      [("hostvars", Json.obj (dSet hv host (Json.obj (jUpdate (hvEntryObj host hv) vars))))] := by
    simp [dSet]
  simp [h1, hupd, hg0, h2]

theorem groupAppendHost_reserved_err {q : Obj} {g : String}
    (hg : (∃ cs, dGet q g = some (allShape cs)) ∨ (∃ m, dGet q g = some (metaShape m)))
    (host : String) :
    groupAppendHost host g q = Res.err q := by
  rcases hg with ⟨cs, hq⟩ | ⟨m, hq⟩
  · simp [groupAppendHost, hq, allShape, dGet]
  · simp [groupAppendHost, hq, metaShape, dGet]

theorem reserved_ensure_state {inv : Obj} (h : WF inv) (host : String) (vars : Obj)
    {g : String} (hg : g = "all" ∨ g = "_meta") :
    ∃ hv cs1 q,
      dGet inv "_meta" = some (metaShape hv) ∧ hostvarsOf inv = hv ∧
      add_group g [] (dSet inv "_meta" (metaShape (dSet hv host (Json.obj (jUpdate (hvEntryObj host hv) vars))))) = Res.ok q ∧
      hostvarsOf q = dSet hv host (Json.obj (jUpdate (hvEntryObj host hv) vars)) ∧
      dGet q "_meta" = some (metaShape (dSet hv host (Json.obj (jUpdate (hvEntryObj host hv) vars)))) ∧
      dGet q "all" = some (allShape (appendIfAbsent (Json.str g) cs1)) ∧
      (∀ k, k ≠ "_meta" → k ≠ "all" → dGet q k = dGet inv k) ∧
      (∀ k, Json.str host ∈ hostsOf k q → Json.str host ∈ hostsOf k inv) := by
  obtain ⟨hv, hm, hupd, hhveq, hwfs1, hframes1, hhvs1, hkeyss1⟩ := hostvars_write h host vars
  obtain ⟨cs1, halls1, -, -, -⟩ := hwfs1.all_ok
  have hmetas1 : dGet (dSet inv "_meta" (metaShape (dSet hv host (Json.obj (jUpdate (hvEntryObj host hv) vars))))) "_meta"
      = some (metaShape (dSet hv host (Json.obj (jUpdate (hvEntryObj host hv) vars)))) :=
    dGet_dSet_self inv "_meta" _
  have hens : ensureGroup g (dSet inv "_meta" (metaShape (dSet hv host (Json.obj (jUpdate (hvEntryObj host hv) vars)))))
      = Res.ok (dSet (dSet inv "_meta" (metaShape (dSet hv host (Json.obj (jUpdate (hvEntryObj host hv) vars))))) "all" (allShape (appendIfAbsent (Json.str g) cs1))) := by
    rcases hg with rfl | rfl
    · exact ensureGroup_all halls1
    · exact ensureGroup_meta halls1 (by rw [hmetas1]; rfl)
  have hag : add_group g [] (dSet inv "_meta" (metaShape (dSet hv host (Json.obj (jUpdate (hvEntryObj host hv) vars)))))
      = Res.ok (dSet (dSet inv "_meta" (metaShape (dSet hv host (Json.obj (jUpdate (hvEntryObj host hv) vars))))) "all" (allShape (appendIfAbsent (Json.str g) cs1))) := by
    simp [add_group, hens]
  have hmetaq : dGet (dSet (dSet inv "_meta" (metaShape (dSet hv host (Json.obj (jUpdate (hvEntryObj host hv) vars))))) "all" (allShape (appendIfAbsent (Json.str g) cs1))) "_meta"
      = some (metaShape (dSet hv host (Json.obj (jUpdate (hvEntryObj host hv) vars)))) := by
    rw [dGet_dSet_ne _ _ (by decide)]
    exact hmetas1
  refine ⟨hv, cs1, _, hm, hhveq, hag, ?_, hmetaq, dGet_dSet_self _ "all" _, ?_, ?_⟩
  · exact hostvarsOf_of_meta hmetaq
  · intro k hk1 hk2
    rw [dGet_dSet_ne _ _ hk2, hframes1 k hk1]
  · intro k hk
    by_cases hk2 : k = "all"
    · subst hk2
      rw [hostsOf.eq_def, dGet_dSet_self] at hk
      simp only [recHosts_allShape] at hk
      cases hk
    · by_cases hk1 : k = "_meta"
      · subst hk1
        rw [hostsOf.eq_def, hmetaq] at hk
        simp only [recHosts_metaShape] at hk
        cases hk
      · rw [hostsOf.eq_def, dGet_dSet_ne _ _ hk2, hframes1 k hk1] at hk
        rw [hostsOf.eq_def]
        exact hk

theorem reserved_crash_main {inv : Obj} (h : WF inv) (host : String) (vars : Obj)
    {g : String} (hg : g = "all" ∨ g = "_meta") :
    crashSpec (add_host host (some g) vars [] inv) inv host vars ∧
    crashSpec (add_host_to_group host (some g) vars [] inv) inv host vars := by
  have hg0 : g ≠ "" := by rcases hg with rfl | rfl <;> decide
  have hgu : g ≠ "ungrouped" := by rcases hg with rfl | rfl <;> decide
  obtain ⟨hv, cs1, q, hm, hhveq, hagq, hhvq, hmetaq, hallq, hframeq, hmemq⟩ :=
    reserved_ensure_state h host vars hg
  have hhvq' : hostvarsOf q = dSet (hostvarsOf inv) host
      (Json.obj (jUpdate (hvEntryObj host (hostvarsOf inv)) vars)) := by
    rw [hhveq]
    exact hhvq
  have herrA : groupAppendHost host g q = Res.err q := by
    rcases hg with rfl | rfl
    · exact groupAppendHost_reserved_err (Or.inl ⟨_, hallq⟩) host
    · exact groupAppendHost_reserved_err (Or.inr ⟨_, hmetaq⟩) host
  constructor
  · -- add_host with a reserved group name
    obtain ⟨hv2, hm2, -, hred⟩ := add_host_named_red h hg0 host vars []
    have hveq : hv2 = hv := metaShape_inj (Option.some.inj ((hm2.symm).trans hm))
    subst hveq
    have hcall : add_host host (some g) vars [] inv = Res.err q := by
      rw [hred, hagq]
      exact herrA
    exact crashSpec_intro hcall hhvq' hmemq
  · -- add_host_to_group with a reserved group name
    obtain ⟨hv2, hm2, -, hred⟩ := add_host_to_group_red0 h hg0 host vars []
    have hveq : hv2 = hv := metaShape_inj (Option.some.inj ((hm2.symm).trans hm))
    subst hveq
    cases hu : dGet inv "ungrouped" with
    | none =>
        have hqu : dGet q "ungrouped" = none := by
          rw [hframeq "ungrouped" (by decide) (by decide)]
          exact hu
        have hcall : add_host_to_group host (some g) vars [] inv = Res.err q := by
          rw [hred, hagq]
          simp [hqu]
        exact crashSpec_intro hcall hhvq' hmemq
    | some v =>
        obtain ⟨uhs, uvs, ucs, hsh, hnd1, -, -⟩ :=
          h.groups_ok "ungrouped" v hu (by decide) (by decide)
        subst hsh
        have hqu : dGet q "ungrouped" = some (groupRec uhs uvs ucs) := by
          rw [hframeq "ungrouped" (by decide) (by decide)]
          exact hu
        by_cases hjm : jmem (Json.str host) uhs
        · have hgq : dGet (dSet q "ungrouped" (groupRec (listRemoveFirst (Json.str host) uhs) uvs ucs)) g
              = dGet q g := dGet_dSet_ne q _ hgu
          have herrB : groupAppendHost host g
              (dSet q "ungrouped" (groupRec (listRemoveFirst (Json.str host) uhs) uvs ucs))
              = Res.err (dSet q "ungrouped" (groupRec (listRemoveFirst (Json.str host) uhs) uvs ucs)) := by
            rcases hg with rfl | rfl
            · exact groupAppendHost_reserved_err (Or.inl ⟨_, hgq.trans hallq⟩) host
            · exact groupAppendHost_reserved_err (Or.inr ⟨_, hgq.trans hmetaq⟩) host
          have hcall : add_host_to_group host (some g) vars [] inv
              = Res.err (dSet q "ungrouped" (groupRec (listRemoveFirst (Json.str host) uhs) uvs ucs)) := by
            rw [hred, hagq]
            simpa [hqu, groupRec, dGet, dSet, hjm] using herrB
          refine crashSpec_intro hcall ?_ ?_
          · have : dGet (dSet q "ungrouped" (groupRec (listRemoveFirst (Json.str host) uhs) uvs ucs)) "_meta"
                = dGet q "_meta" := dGet_dSet_ne q _ (by decide)
            rw [hostvarsOf_eq_of_meta this]
            exact hhvq'
          · intro k hk
            by_cases hku : k = "ungrouped"
            · subst hku
              simp only [hostsOf.eq_def, dGet_dSet_self, recHosts_groupRec] at hk
              simp only [hostsOf.eq_def, hu, recHosts_groupRec]
              exact mem_listRemoveFirst hk
            · rw [hostsOf.eq_def, dGet_dSet_ne q _ hku] at hk
              exact hmemq k (by rw [hostsOf.eq_def]; exact hk)
        · have hcall : add_host_to_group host (some g) vars [] inv = Res.err q := by
            rw [hred, hagq]
            simp [hqu, groupRec, dGet, dSet, hjm, herrA]
          exact crashSpec_intro hcall hhvq' hmemq

/-- C10: on any well-formed store, `add_host` and `add_host_to_group` with
the reserved group names `all` or `_meta` terminate with an uncaught
key-lookup error instead of recording membership: the result is an error
whose state carries the already created/updated `_meta.hostvars` entry, no
`hosts` list gains the host, and for a previously unknown host the store is
left modified by the failed call. -/
theorem claim_C10 (inv : Obj) (h : WF inv) (host : String) (vars : Obj) :
    crashSpec (add_host host (some "all") vars [] inv) inv host vars ∧
    crashSpec (add_host host (some "_meta") vars [] inv) inv host vars ∧
    crashSpec (add_host_to_group host (some "all") vars [] inv) inv host vars ∧
    crashSpec (add_host_to_group host (some "_meta") vars [] inv) inv host vars := by
  obtain ⟨h1, h2⟩ := reserved_crash_main h host vars (Or.inl rfl)
  obtain ⟨h3, h4⟩ := reserved_crash_main h host vars (Or.inr rfl)
  exact ⟨h1, h3, h2, h4⟩

/-- C10 witness. -/
theorem claim_C10_witness :
    crashSpec (add_host "h9" (some "all") [("a", Json.str "1")] [] freshInventory)
      freshInventory "h9" [("a", Json.str "1")] ∧
    crashSpec (add_host "h9" (some "_meta") [("a", Json.str "1")] [] freshInventory)
      freshInventory "h9" [("a", Json.str "1")] ∧
    crashSpec (add_host_to_group "h9" (some "all") [("a", Json.str "1")] [] freshInventory)
      freshInventory "h9" [("a", Json.str "1")] ∧
    crashSpec (add_host_to_group "h9" (some "_meta") [("a", Json.str "1")] [] freshInventory)
      freshInventory "h9" [("a", Json.str "1")] :=
  claim_C10 freshInventory WF_fresh "h9" [("a", Json.str "1")]

end AnsibleInventory
